import Mathlib

/-!
The two benchmark programs of `CPU_conv` (repository conv_layout).

A shallow embedding of `CPU_conv/conv.cpp` and `CPU_conv/conv_reshape.cpp`.

Both programs call into the oneDNN library (`dnnl.hpp`), which is not part of the
repository.  The library appears here as a parameter (`dnnl.Library`): the memory
descriptor type, the descriptor constructor and the descriptors a convolution primitive
descriptor reports are arbitrary.  Library calls are taken to return (an exception raised
by the library aborts the program and is outside the embedding).

What the programs do with the library is recorded as a trace of events, in program order.
-/

namespace dnnl

/-- The values of `memory::format_tag` used by the two programs.  The enumerators the sources
write (`nchw`, `oihw`, ...) are names for these values: `dnnl_types.h` declares
`dnnl_nchw = dnnl_abcd`, `dnnl_oihw = dnnl_abcd` and so on, so `mf::nchw == mf::oihw`. -/
inductive format_tag
  | any
  | abcd
  | acdb
  | bcda
  | cdba
  | aBcd16b
  | aBcd4b
  | aBcd8b
  | ABcd16a16b
  | ABcd32a32b
  deriving DecidableEq, Repr

/-- The enumeration `memory::data_type`; the programs only use `f32`. -/
inductive data_type
  | f32
  deriving DecidableEq, Repr

/-- The enumeration `engine::kind`, whose value `parse_engine_kind(argc, argv)` returns. -/
inductive engine.kind
  | cpu
  | gpu
  deriving DecidableEq, Repr

/-- The part of oneDNN the programs use, over an arbitrary type `Desc` of memory descriptors.
`desc` is the constructor `memory::desc(dims, data_type, format_tag)`; the other four fields
are the queries on `convolution_forward::primitive_desc` built on an engine of the given kind
from the three convolution descriptors (source, weights, destination).  The comparison of two
descriptors (`operator!=`) is inequality in `Desc`. -/
structure Library (Desc : Type) where
  desc : List Int → data_type → format_tag → Desc
  src_desc : engine.kind → Desc → Desc → Desc → Desc
  weights_desc : engine.kind → Desc → Desc → Desc → Desc
  dst_desc : engine.kind → Desc → Desc → Desc → Desc
  scratchpad_desc : engine.kind → Desc → Desc → Desc → Desc

/-- The places of `conv_format` where a `memory` object with a buffer is created.  Each is
executed at most once per call, so the place identifies the object. -/
inductive Site
  | src_mem
  | weights_mem
  | dst_mem
  | conv_src_mem
  | conv_weights_mem
  | conv_dst_mem
  | conv_scratchpad_mem
  deriving DecidableEq, Repr

/-- A `dnnl::memory` handle: the object it refers to and that object's descriptor
(`get_desc()`).  Copying a handle (`conv_src_mem = src_mem`) keeps both. -/
structure memory (Desc : Type) where
  site : Site
  get_desc : Desc
  deriving DecidableEq, Repr

/-- What `conv_format` does, one event per library call or clock sample. -/
inductive Event (Desc : Type)
  | mk_engine (kind : engine.kind)
  | mk_stream
  | clock
  | mk_desc (d : Desc)
  | mk_primitive_desc (src weights dst : Desc)
  | mk_memory (m : memory Desc)
  | compare (pd_desc user_desc : Desc) (differ : Bool)
  | mk_reorder (src dst : memory Desc)
  | reorder_execute (src dst : memory Desc)
  | mk_convolution
  | conv_execute (src weights dst : memory Desc)
  | wait
  deriving DecidableEq, Repr

end dnnl

open dnnl

/-- The enumerators of `memory::format_tag` as the sources spell them (`typedef
memory::format_tag mf`). -/
abbrev mf := format_tag

namespace mf

abbrev nchw : mf := format_tag.abcd
abbrev nhwc : mf := format_tag.acdb
abbrev chwn : mf := format_tag.bcda
abbrev oihw : mf := format_tag.abcd
abbrev hwio : mf := format_tag.cdba
abbrev ihwo : mf := format_tag.bcda
abbrev nChw16c : mf := format_tag.aBcd16b
abbrev nChw4c : mf := format_tag.aBcd4b
abbrev nChw8c : mf := format_tag.aBcd8b
abbrev NChw16n16c : mf := format_tag.ABcd16a16b
abbrev NChw32n32c : mf := format_tag.ABcd32a32b

end mf

/-- The compile-time constants `N, H, W, IC, OC, KH, KW` of a program. -/
structure Shape where
  N : Int
  H : Int
  W : Int
  IC : Int
  OC : Int
  KH : Int
  KW : Int
  deriving DecidableEq, Repr

/-- The locals of `conv_format` up to the layout decision (lines 33-69 of `conv.cpp`, lines
34-70 of `conv_reshape.cpp`; the two texts are the same). -/
structure Setup (Desc : Type) where
  conv_src_md : Desc
  conv_weights_md : Desc
  conv_dst_md : Desc
  pd_src_desc : Desc
  pd_weights_desc : Desc
  pd_dst_desc : Desc
  src_mem : memory Desc
  weights_mem : memory Desc
  dst_mem : memory Desc
  need_reorder_src : Bool
  need_reorder_weights : Bool
  need_reorder_dsts : Bool
  conv_src_mem : memory Desc
  conv_weights_mem : memory Desc
  conv_dst_mem : memory Desc

section conv_format_common

variable {Desc : Type} [DecidableEq Desc]

/-- The descriptors, memories, flags and convolution operands `conv_format` computes. -/
def setup (L : Library Desc) (sh : Shape) (engine_kind : engine.kind)
    (input_f wei_f dst_f conv_input_f conv_wei_f conv_dst_f : mf) : Setup Desc :=
  let conv_src_md := L.desc [sh.N, sh.IC, sh.H, sh.W] data_type.f32 conv_input_f
  let conv_weights_md := L.desc [sh.OC, sh.IC, sh.KH, sh.KW] data_type.f32 conv_wei_f
  let conv_dst_md := L.desc [sh.N, sh.OC, sh.H, sh.W] data_type.f32 conv_dst_f
  let pd_src_desc := L.src_desc engine_kind conv_src_md conv_weights_md conv_dst_md
  let pd_weights_desc := L.weights_desc engine_kind conv_src_md conv_weights_md conv_dst_md
  let pd_dst_desc := L.dst_desc engine_kind conv_src_md conv_weights_md conv_dst_md
  let src_mem : memory Desc :=
    ⟨Site.src_mem, L.desc [sh.N, sh.IC, sh.H, sh.W] data_type.f32 input_f⟩
  let weights_mem : memory Desc :=
    ⟨Site.weights_mem, L.desc [sh.OC, sh.IC, sh.KH, sh.KW] data_type.f32 wei_f⟩
  let dst_mem : memory Desc :=
    ⟨Site.dst_mem, L.desc [sh.N, sh.OC, sh.H, sh.W] data_type.f32 dst_f⟩
  let need_reorder_src := decide (pd_src_desc ≠ src_mem.get_desc)
  let need_reorder_weights := decide (pd_weights_desc ≠ weights_mem.get_desc)
  let need_reorder_dsts := decide (pd_dst_desc ≠ dst_mem.get_desc)
  { conv_src_md := conv_src_md
    conv_weights_md := conv_weights_md
    conv_dst_md := conv_dst_md
    pd_src_desc := pd_src_desc
    pd_weights_desc := pd_weights_desc
    pd_dst_desc := pd_dst_desc
    src_mem := src_mem
    weights_mem := weights_mem
    dst_mem := dst_mem
    need_reorder_src := need_reorder_src
    need_reorder_weights := need_reorder_weights
    need_reorder_dsts := need_reorder_dsts
    conv_src_mem := if need_reorder_src then ⟨Site.conv_src_mem, pd_src_desc⟩ else src_mem
    conv_weights_mem :=
      if need_reorder_weights then ⟨Site.conv_weights_mem, pd_weights_desc⟩ else weights_mem
    conv_dst_mem := if need_reorder_dsts then ⟨Site.conv_dst_mem, pd_dst_desc⟩ else dst_mem }

/-- The events of the descriptor and memory construction and of the three comparisons. -/
def setup_events (su : Setup Desc) : List (Event Desc) :=
  [ Event.mk_desc su.conv_src_md,
    Event.mk_desc su.conv_weights_md,
    Event.mk_desc su.conv_dst_md,
    Event.mk_primitive_desc su.conv_src_md su.conv_weights_md su.conv_dst_md,
    Event.mk_desc su.src_mem.get_desc,
    Event.mk_memory su.src_mem,
    Event.mk_desc su.weights_mem.get_desc,
    Event.mk_memory su.weights_mem,
    Event.mk_desc su.dst_mem.get_desc,
    Event.mk_memory su.dst_mem,
    Event.compare su.pd_src_desc su.src_mem.get_desc su.need_reorder_src,
    Event.compare su.pd_weights_desc su.weights_mem.get_desc su.need_reorder_weights,
    Event.compare su.pd_dst_desc su.dst_mem.get_desc su.need_reorder_dsts ]
  ++ (if su.need_reorder_src then [Event.mk_memory su.conv_src_mem] else [])
  ++ (if su.need_reorder_weights then [Event.mk_memory su.conv_weights_mem] else [])
  ++ (if su.need_reorder_dsts then [Event.mk_memory su.conv_dst_mem] else [])

/-- The three guarded reorder blocks, in the order the sources have them: source, weights,
destination.  Each executes on the stream and waits. -/
def reorder_events (su : Setup Desc) : List (Event Desc) :=
  (if su.need_reorder_src then
      [ Event.mk_reorder su.src_mem su.conv_src_mem,
        Event.reorder_execute su.src_mem su.conv_src_mem,
        Event.wait ]
    else [])
  ++ (if su.need_reorder_weights then
      [ Event.mk_reorder su.weights_mem su.conv_weights_mem,
        Event.reorder_execute su.weights_mem su.conv_weights_mem,
        Event.wait ]
    else [])
  ++ (if su.need_reorder_dsts then
      [ Event.mk_reorder su.conv_dst_mem su.dst_mem,
        Event.reorder_execute su.conv_dst_mem su.dst_mem,
        Event.wait ]
    else [])

/-- The scratchpad memory and the convolution primitive (`auto conv = ...`). -/
def primitive_events (L : Library Desc) (engine_kind : engine.kind) (su : Setup Desc) :
    List (Event Desc) :=
  [ Event.mk_memory ⟨Site.conv_scratchpad_mem,
      L.scratchpad_desc engine_kind su.conv_src_md su.conv_weights_md su.conv_dst_md⟩,
    Event.mk_convolution ]

/-- One `conv.execute(s, ...)` followed by `s.wait()`. -/
def run_events (su : Setup Desc) : List (Event Desc) :=
  [ Event.conv_execute su.conv_src_mem su.conv_weights_mem su.conv_dst_mem, Event.wait ]

end conv_format_common

/-! ## `conv.cpp` -/

namespace conv

/-- Line 17 of `conv.cpp`: `N = 1, H = 200, W = 200, IC = 3, OC = 3, KH = 3, KW = 3`. -/
def shape : Shape :=
  { N := 1, H := 200, W := 200, IC := 3, OC := 3, KH := 3, KW := 3 }

/-- The global `tags` of `conv.cpp`; the program does not read it. -/
def tags : List mf := [mf.nchw]

/-- The global `wei_tags` of `conv.cpp`; the program does not read it. -/
def wei_tags : List mf := [mf.nchw]

/-- The procedure `conv_format` of `conv.cpp` over given shape constants: the trace of its
events.  The first clock sample (`start`) is taken after the reorders and the construction of
the primitive, the second inside the throughput expression after the loop; the loop
`for (int i = 0; i < repeat_times; i++)` runs `repeat_times.toNat` times. -/
def conv_format_at {Desc : Type} [DecidableEq Desc] (L : Library Desc) (sh : Shape)
    (engine_kind : engine.kind)
    (input_f wei_f dst_f conv_input_f conv_wei_f conv_dst_f : mf) (repeat_times : Int) :
    List (Event Desc) :=
  let su := setup L sh engine_kind input_f wei_f dst_f conv_input_f conv_wei_f conv_dst_f
  [Event.mk_engine engine_kind, Event.mk_stream]
  ++ setup_events su
  ++ reorder_events su
  ++ primitive_events L engine_kind su
  ++ [Event.clock]
  ++ (List.range repeat_times.toNat).flatMap (fun _ => run_events su)
  ++ [Event.clock]

/-- The procedure `conv_format` of `conv.cpp`. -/
def conv_format {Desc : Type} [DecidableEq Desc] (L : Library Desc)
    (engine_kind : engine.kind)
    (input_f wei_f dst_f conv_input_f conv_wei_f conv_dst_f : mf) (repeat_times : Int) :
    List (Event Desc) :=
  conv_format_at L shape engine_kind input_f wei_f dst_f conv_input_f conv_wei_f conv_dst_f
    repeat_times

/-- Multiplication of two `int` values; `none` when the product leaves the 32-bit range. -/
def int_mul (a b : Int) : Option Int :=
  if -(2 : Int) ^ 31 ≤ a * b ∧ a * b < (2 : Int) ^ 31 then some (a * b) else none

/-- Conversion of an `int` to the 64-bit `size_t`. -/
def to_size_t (a : Int) : Nat :=
  (a % (2 : Int) ^ 64).toNat

/-- Multiplication of two `size_t` values, modulo `2 ^ 64`. -/
def size_mul (a b : Nat) : Nat :=
  (a * b) % 2 ^ 64

/-- The value of `sizeof(float)`. -/
def sizeof_float : Nat := 4

/-- The integer part of the throughput numerator of line 103,
`N * IC * H * W * sizeof(float) * repeat_times`, evaluated left to right: three `int`
products, then two `size_t` products.  The factor `1e-9` and the division by the elapsed
time that follow are floating point and are left out. -/
def byte_count_at (sh : Shape) (repeat_times : Int) : Option Nat :=
  (int_mul sh.N sh.IC).bind fun a =>
  (int_mul a sh.H).bind fun b =>
  (int_mul b sh.W).bind fun c =>
  some (size_mul (size_mul (to_size_t c) sizeof_float) (to_size_t repeat_times))

/-- The integer byte count with the constants of `conv.cpp`. -/
def byte_count (repeat_times : Int) : Option Nat :=
  byte_count_at shape repeat_times

/-- The local `repeat_times` of `main` in `conv.cpp`. -/
def repeat_times : Int := 1000

/-- The call `main` of `conv.cpp` makes: caller tags `nchw`, `nhwc`, `nchw`, convolution tags
`any`, and `repeat_times`. -/
def main {Desc : Type} [DecidableEq Desc] (L : Library Desc) (engine_kind : engine.kind) :
    List (Event Desc) :=
  conv_format L engine_kind mf.nchw mf.nhwc mf.nchw format_tag.any format_tag.any
    format_tag.any repeat_times

end conv

/-! ## `conv_reshape.cpp` -/

namespace conv_reshape

/-- Line 17 of `conv_reshape.cpp`:
`N = 1, H = 14, W = 14, IC = 128, OC = 256, KH = 3, KW = 3`. -/
def shape : Shape :=
  { N := 1, H := 14, W := 14, IC := 128, OC := 256, KH := 3, KW := 3 }

/-- The global `tags`. -/
def tags : List mf :=
  [mf.nchw, mf.chwn, mf.nhwc, mf.nChw16c, mf.nChw4c, mf.nChw8c, mf.NChw16n16c, mf.NChw32n32c]

/-- The global `wei_tags`. -/
def wei_tags : List mf :=
  [mf.oihw, mf.hwio, mf.ihwo]

/-- The procedure `conv_format` of `conv_reshape.cpp` over given shape constants: the trace of
its events.  The first clock sample (`start`) is taken right after the engine and the stream
are made, the second in the `return` statement; the returned value is their difference. -/
def conv_format_at {Desc : Type} [DecidableEq Desc] (L : Library Desc) (sh : Shape)
    (engine_kind : engine.kind)
    (input_f wei_f dst_f conv_input_f conv_wei_f conv_dst_f : mf) : List (Event Desc) :=
  let su := setup L sh engine_kind input_f wei_f dst_f conv_input_f conv_wei_f conv_dst_f
  [Event.mk_engine engine_kind, Event.mk_stream]
  ++ [Event.clock]
  ++ setup_events su
  ++ reorder_events su
  ++ primitive_events L engine_kind su
  ++ run_events su
  ++ [Event.clock]

/-- The procedure `conv_format` of `conv_reshape.cpp`. -/
def conv_format {Desc : Type} [DecidableEq Desc] (L : Library Desc)
    (engine_kind : engine.kind)
    (input_f wei_f dst_f conv_input_f conv_wei_f conv_dst_f : mf) : List (Event Desc) :=
  conv_format_at L shape engine_kind input_f wei_f dst_f conv_input_f conv_wei_f conv_dst_f

/-- The arguments of one call of `conv_format`. -/
structure Call where
  engine_kind : engine.kind
  input_f : mf
  wei_f : mf
  dst_f : mf
  conv_input_f : mf
  conv_wei_f : mf
  conv_dst_f : mf
  deriving DecidableEq, Repr

/-- A line `main` writes to standard output: the status line of a combination
(`success_cnt m n k suboptimal_duration optimal_duration`, separated by blanks) or its success
line (the text `[Success]` followed by `m`, a blank, `n`, a blank and `k`). -/
inductive Line (D : Type)
  | status (success_cnt : Int) (m n k : Nat) (suboptimal_duration optimal_duration : D)
  | success (m n k : Nat)
  deriving DecidableEq, Repr

/-- The state `main` threads through its loops: the calls of `conv_format` made so far, the
lines written so far, and the local `success_cnt`. -/
structure MainState (D : Type) where
  calls : List Call
  out : List (Line D)
  success_cnt : Int

/-- A loop `for (int i = 0; i < n; i++)` whose body cannot fail. -/
def for_loop {σ : Type} (n : Nat) (body : Nat → σ → σ) (s : σ) : σ :=
  (List.range n).foldl (fun s i => body i s) s

/-- A loop `for (int i = 0; i < n; i++)` whose body reads a vector element: `none` is the
out-of-range read. -/
def for_loop_checked {σ : Type} (n : Nat) (body : Nat → σ → Option σ) (s : σ) : Option σ :=
  (List.range n).foldlM (fun s i => body i s) s

section main

variable {D : Type} [Zero D] [Add D] [LT D] [DecidableRel (fun a b : D => a < b)]

/-- One call of `conv_format` from `main`.  The value it returns is a clock difference, which
the program does not determine: `ret j` is the value the call number `j` of the run returns
(counting from 0). -/
def call_conv_format (ret : Nat → D) (c : Call) (s : MainState D) : D × MainState D :=
  (ret s.calls.length, { s with calls := s.calls ++ [c] })

/-- The local `repeat_times` of `main` (`double repeat_times = 10.0`; the loops
`for (int i = 0; i < repeat_times; i++)` run for `i = 0, ..., 9`). -/
def repeat_times : Nat := 10

/-- One timing loop of `main`: `repeat_times` calls with the same arguments, the returned
values added one by one to an accumulator that starts at 0. -/
def timing_loop (ret : Nat → D) (c : Call) (s : MainState D) : D × MainState D :=
  for_loop repeat_times
    (fun _ p =>
      let r := call_conv_format ret c p.2
      (p.1 + r.1, r.2))
    (0, s)

/-- The body of the innermost loop of `main` (lines 111-129). -/
def combination (engine_kind : engine.kind) (ret : Nat → D) (m n k : Nat)
    (input_tag wei_tag dst_tag : mf) (s : MainState D) : MainState D :=
  let sub := timing_loop ret
    ⟨engine_kind, input_tag, wei_tag, dst_tag, input_tag, wei_tag, dst_tag⟩ s
  let opt := timing_loop ret
    ⟨engine_kind, input_tag, wei_tag, dst_tag, format_tag.any, format_tag.any, format_tag.any⟩
    sub.2
  let suboptimal_duration := sub.1
  let optimal_duration := opt.1
  let s1 : MainState D :=
    { opt.2 with
      out := opt.2.out ++ [Line.status opt.2.success_cnt m n k suboptimal_duration
        optimal_duration] }
  if suboptimal_duration < optimal_duration then
    { s1 with success_cnt := s1.success_cnt + 1, out := s1.out ++ [Line.success m n k] }
  else s1

/-- The procedure `main` of `conv_reshape.cpp` (lines 102-133), for the engine kind
`parse_engine_kind(argc, argv)` gives.  The weight tag is read from `tags` (line 108), with
`n` running below `wei_tags.size()`. -/
def main (engine_kind : engine.kind) (ret : Nat → D) : Option (MainState D) :=
  for_loop_checked tags.length
    (fun m s =>
      (tags[m]?).bind fun input_tag =>
      for_loop_checked wei_tags.length
        (fun n s =>
          (tags[n]?).bind fun wei_tag =>
          for_loop_checked tags.length
            (fun k s =>
              (tags[k]?).bind fun dst_tag =>
              some (combination engine_kind ret m n k input_tag wei_tag dst_tag s))
            s)
        s)
    { calls := [], out := [], success_cnt := 0 }

end main

end conv_reshape

/-! ## What `main` of `conv_reshape.cpp` is expected to do, combination by combination

The combinations are numbered in the order the three loops visit them: the combination
`(m, n, k)` has the number `c = (m * wei_tags.size() + n) * tags.size() + k`. -/

namespace conv_reshape

/-- The number of combinations the loops visit. -/
def combinations : Nat := tags.length * wei_tags.length * tags.length

/-- The index `m` of the combination number `c`. -/
def combo_m (c : Nat) : Nat := c / (wei_tags.length * tags.length)

/-- The index `n` of the combination number `c`. -/
def combo_n (c : Nat) : Nat := c / tags.length % wei_tags.length

/-- The index `k` of the combination number `c`. -/
def combo_k (c : Nat) : Nat := c % tags.length

/-- The element `tags[i]`, for an index in range. -/
def tag_at (i : Nat) : mf := tags.getD i format_tag.any

/-- The calls of `conv_format` one combination makes. -/
def calls_per_combination : Nat := repeat_times + repeat_times

/-- The arguments of the suboptimal path of the combination number `c`: the convolution tags
are the caller's tags. -/
def suboptimal_call (engine_kind : engine.kind) (c : Nat) : Call :=
  { engine_kind := engine_kind
    input_f := tag_at (combo_m c)
    wei_f := tag_at (combo_n c)
    dst_f := tag_at (combo_k c)
    conv_input_f := tag_at (combo_m c)
    conv_wei_f := tag_at (combo_n c)
    conv_dst_f := tag_at (combo_k c) }

/-- The arguments of the optimal path of the combination number `c`: the convolution tags are
all `any`. -/
def optimal_call (engine_kind : engine.kind) (c : Nat) : Call :=
  { engine_kind := engine_kind
    input_f := tag_at (combo_m c)
    wei_f := tag_at (combo_n c)
    dst_f := tag_at (combo_k c)
    conv_input_f := format_tag.any
    conv_wei_f := format_tag.any
    conv_dst_f := format_tag.any }

section expected

variable {D : Type} [Zero D] [Add D] [LT D] [DecidableRel (fun a b : D => a < b)]

/-- Durations added one by one, in order, to an accumulator that starts at 0. -/
def accumulate (ds : List D) : D :=
  ds.foldl (fun acc d => acc + d) 0

/-- The accumulated suboptimal duration of the combination number `c`: its first
`repeat_times` calls. -/
def suboptimal_total (ret : Nat → D) (c : Nat) : D :=
  accumulate ((List.range repeat_times).map fun i => ret (c * calls_per_combination + i))

/-- The accumulated optimal duration of the combination number `c`: its last `repeat_times`
calls. -/
def optimal_total (ret : Nat → D) (c : Nat) : D :=
  accumulate
    ((List.range repeat_times).map fun i => ret (c * calls_per_combination + repeat_times + i))

/-- The combination number `c` is a success: suboptimal strictly below optimal. -/
def wins (ret : Nat → D) (c : Nat) : Bool :=
  decide (suboptimal_total ret c < optimal_total ret c)

/-- The number of successes among the combinations processed before number `c`. -/
def successes_before (ret : Nat → D) (c : Nat) : Nat :=
  ((List.range c).filter (wins ret)).length

/-- The lines expected from the combination number `c`. -/
def expected_lines (ret : Nat → D) (c : Nat) : List (Line D) :=
  Line.status (successes_before ret c) (combo_m c) (combo_n c) (combo_k c)
      (suboptimal_total ret c) (optimal_total ret c)
    :: (if wins ret c then [Line.success (combo_m c) (combo_n c) (combo_k c)] else [])

end expected

end conv_reshape

namespace conv_reshape

/-- The state `main` is expected to have reached after its first `c` combinations. -/
def expected_state {D : Type} [Zero D] [Add D] [LT D] [DecidableRel (fun a b : D => a < b)]
    (engine_kind : engine.kind) (ret : Nat → D) (c : Nat) : MainState D :=
  { calls := (List.range c).flatMap fun j =>
      List.replicate repeat_times (suboptimal_call engine_kind j)
        ++ List.replicate repeat_times (optimal_call engine_kind j)
    out := (List.range c).flatMap (expected_lines ret)
    success_cnt := (successes_before ret c : Int) }

end conv_reshape

/-! ## Reading a trace -/

namespace dnnl

namespace Event

variable {Desc : Type}

/-- A clock sample. -/
def is_clock : Event Desc → Bool
  | clock => true
  | _ => false

/-- An operation issued on the stream: the execute of a reorder or of the convolution. -/
def is_execute : Event Desc → Bool
  | reorder_execute _ _ => true
  | conv_execute _ _ _ => true
  | _ => false

/-- A blocking wait on the stream. -/
def is_wait : Event Desc → Bool
  | wait => true
  | _ => false

/-- The execute of a reorder. -/
def is_reorder : Event Desc → Bool
  | reorder_execute _ _ => true
  | _ => false

/-- The execute of the convolution. -/
def is_conv : Event Desc → Bool
  | conv_execute _ _ _ => true
  | _ => false

/-- The two memories of a reorder execute (from, to). -/
def reorder_args : Event Desc → Option (memory Desc × memory Desc)
  | reorder_execute a b => some (a, b)
  | _ => none

/-- The three operands of a convolution execute (source, weights, destination). -/
def conv_args : Event Desc → Option (memory Desc × memory Desc × memory Desc)
  | conv_execute a b c => some (a, b, c)
  | _ => none

end Event

end dnnl

section trace_reading

variable {Desc : Type}

/-- The reorders a trace executes, in order, as (from, to). -/
def executed_reorders (t : List (Event Desc)) : List (memory Desc × memory Desc) :=
  t.filterMap Event.reorder_args

/-- The operand triples of the convolution executes of a trace, in order. -/
def conv_operands (t : List (Event Desc)) : List (memory Desc × memory Desc × memory Desc) :=
  t.filterMap Event.conv_args

/-- The operations a trace issues on the stream, in order. -/
def executes (t : List (Event Desc)) : List (Event Desc) :=
  t.filter Event.is_execute

/-- The timed interval of a trace: the events after the first clock sample and before the
next one. -/
def timed (t : List (Event Desc)) : List (Event Desc) :=
  ((t.dropWhile fun e => !e.is_clock).drop 1).takeWhile fun e => !e.is_clock

/-- The trace without its clock samples. -/
def without_clock (t : List (Event Desc)) : List (Event Desc) :=
  t.filter fun e => !e.is_clock

/-- Every execute of the trace has a wait as its next event. -/
def execute_then_wait : List (Event Desc) → Bool
  | [] => true
  | e :: rest =>
    (if e.is_execute then
        (match rest with
          | next :: _ => next.is_wait
          | [] => false)
      else true)
    && execute_then_wait rest

end trace_reading

/-! ## A library instance to evaluate the models on -/

/-- A memory descriptor that is its dimensions, data type and format tag. -/
structure plain_desc where
  dims : List Int
  data_type : data_type
  tag : format_tag
  deriving DecidableEq, Repr

/-- The layout `blocked_library` picks for a descriptor: the given one when its tag is not
`any`, the blocked layout `aBcd8b` otherwise. -/
def choose_layout (d : plain_desc) : plain_desc :=
  if d.tag = format_tag.any then { d with tag := format_tag.aBcd8b } else d

/-- An instance of the library interface: the primitive descriptor reports a descriptor it was
given when the tag is not `any` and one with a blocked layout when the tag is `any`. -/
def blocked_library : Library plain_desc :=
  { desc := fun dims dt tag => { dims := dims, data_type := dt, tag := tag }
    src_desc := fun _ src _ _ => choose_layout src
    weights_desc := fun _ _ weights _ => choose_layout weights
    dst_desc := fun _ _ _ dst => choose_layout dst
    scratchpad_desc := fun _ _ _ _ =>
      { dims := [], data_type := data_type.f32, tag := format_tag.any } }

/-! ## What the layout decision is expected to give -/

section expected_layout

variable {Desc : Type} [DecidableEq Desc]

/-- The reorders expected of `conv_format`, tensor by tensor: between the caller's memory and
a memory created for the descriptor the primitive descriptor reports, when the two
descriptors differ; none for a tensor whose descriptors are equal. -/
def expected_reorders (su : Setup Desc) : List (memory Desc × memory Desc) :=
  (if su.pd_src_desc = su.src_mem.get_desc then []
    else [(su.src_mem, ⟨Site.conv_src_mem, su.pd_src_desc⟩)])
  ++ (if su.pd_weights_desc = su.weights_mem.get_desc then []
    else [(su.weights_mem, ⟨Site.conv_weights_mem, su.pd_weights_desc⟩)])
  ++ (if su.pd_dst_desc = su.dst_mem.get_desc then []
    else [(⟨Site.conv_dst_mem, su.pd_dst_desc⟩, su.dst_mem)])

/-- The convolution operands expected of `conv_format`, tensor by tensor: the caller's memory
when the descriptors are equal, the memory created for the reported descriptor otherwise. -/
def expected_operands (su : Setup Desc) : memory Desc × memory Desc × memory Desc :=
  (if su.pd_src_desc = su.src_mem.get_desc then su.src_mem
    else ⟨Site.conv_src_mem, su.pd_src_desc⟩,
   if su.pd_weights_desc = su.weights_mem.get_desc then su.weights_mem
    else ⟨Site.conv_weights_mem, su.pd_weights_desc⟩,
   if su.pd_dst_desc = su.dst_mem.get_desc then su.dst_mem
    else ⟨Site.conv_dst_mem, su.pd_dst_desc⟩)

end expected_layout

/-! ## The layout decision written from the library alone

The same expectation as above, stated without `setup`: only the library `L`, the shape
constants and the six tags occur. -/

section layout_from_library

variable {Desc : Type} [DecidableEq Desc]

/-- The descriptor `memory::desc({N, IC, H, W}, f32, tag)` of a source tensor. -/
def src_md (L : Library Desc) (sh : Shape) (tag : mf) : Desc :=
  L.desc [sh.N, sh.IC, sh.H, sh.W] data_type.f32 tag

/-- The descriptor `memory::desc({OC, IC, KH, KW}, f32, tag)` of a weights tensor. -/
def weights_md (L : Library Desc) (sh : Shape) (tag : mf) : Desc :=
  L.desc [sh.OC, sh.IC, sh.KH, sh.KW] data_type.f32 tag

/-- The descriptor `memory::desc({N, OC, H, W}, f32, tag)` of a destination tensor. -/
def dst_md (L : Library Desc) (sh : Shape) (tag : mf) : Desc :=
  L.desc [sh.N, sh.OC, sh.H, sh.W] data_type.f32 tag

/-- The source descriptor the library reports for the convolution built from the three
convolution tags. -/
def library_src_desc (L : Library Desc) (sh : Shape) (engine_kind : engine.kind)
    (conv_input_f conv_wei_f conv_dst_f : mf) : Desc :=
  L.src_desc engine_kind (src_md L sh conv_input_f) (weights_md L sh conv_wei_f)
    (dst_md L sh conv_dst_f)

/-- The weights descriptor the library reports for the convolution built from the three
convolution tags. -/
def library_weights_desc (L : Library Desc) (sh : Shape) (engine_kind : engine.kind)
    (conv_input_f conv_wei_f conv_dst_f : mf) : Desc :=
  L.weights_desc engine_kind (src_md L sh conv_input_f) (weights_md L sh conv_wei_f)
    (dst_md L sh conv_dst_f)

/-- The destination descriptor the library reports for the convolution built from the three
convolution tags. -/
def library_dst_desc (L : Library Desc) (sh : Shape) (engine_kind : engine.kind)
    (conv_input_f conv_wei_f conv_dst_f : mf) : Desc :=
  L.dst_desc engine_kind (src_md L sh conv_input_f) (weights_md L sh conv_wei_f)
    (dst_md L sh conv_dst_f)

/-- The reorders expected of a call of `conv_format`, tensor by tensor and in the order source,
weights, destination: for a tensor whose reported descriptor differs from the caller's, one
reorder between the caller's memory and a memory made in the call for the reported descriptor
(into it for source and weights, out of it for the destination); for a tensor whose
descriptors are equal, none. -/
def reorders_by_descriptor (L : Library Desc) (sh : Shape) (engine_kind : engine.kind)
    (input_f wei_f dst_f conv_input_f conv_wei_f conv_dst_f : mf) :
    List (memory Desc × memory Desc) :=
  (if library_src_desc L sh engine_kind conv_input_f conv_wei_f conv_dst_f
        = src_md L sh input_f then []
    else [(⟨Site.src_mem, src_md L sh input_f⟩,
           ⟨Site.conv_src_mem,
            library_src_desc L sh engine_kind conv_input_f conv_wei_f conv_dst_f⟩)])
  ++ (if library_weights_desc L sh engine_kind conv_input_f conv_wei_f conv_dst_f
        = weights_md L sh wei_f then []
    else [(⟨Site.weights_mem, weights_md L sh wei_f⟩,
           ⟨Site.conv_weights_mem,
            library_weights_desc L sh engine_kind conv_input_f conv_wei_f conv_dst_f⟩)])
  ++ (if library_dst_desc L sh engine_kind conv_input_f conv_wei_f conv_dst_f
        = dst_md L sh dst_f then []
    else [(⟨Site.conv_dst_mem,
            library_dst_desc L sh engine_kind conv_input_f conv_wei_f conv_dst_f⟩,
           ⟨Site.dst_mem, dst_md L sh dst_f⟩)])

/-- The convolution operands expected of a call of `conv_format`, tensor by tensor: the
caller's memory when the reported descriptor equals the caller's, the memory made in the call
for the reported descriptor otherwise. -/
def operands_by_descriptor (L : Library Desc) (sh : Shape) (engine_kind : engine.kind)
    (input_f wei_f dst_f conv_input_f conv_wei_f conv_dst_f : mf) :
    memory Desc × memory Desc × memory Desc :=
  (if library_src_desc L sh engine_kind conv_input_f conv_wei_f conv_dst_f
        = src_md L sh input_f then ⟨Site.src_mem, src_md L sh input_f⟩
    else ⟨Site.conv_src_mem,
      library_src_desc L sh engine_kind conv_input_f conv_wei_f conv_dst_f⟩,
   if library_weights_desc L sh engine_kind conv_input_f conv_wei_f conv_dst_f
        = weights_md L sh wei_f then ⟨Site.weights_mem, weights_md L sh wei_f⟩
    else ⟨Site.conv_weights_mem,
      library_weights_desc L sh engine_kind conv_input_f conv_wei_f conv_dst_f⟩,
   if library_dst_desc L sh engine_kind conv_input_f conv_wei_f conv_dst_f
        = dst_md L sh dst_f then ⟨Site.dst_mem, dst_md L sh dst_f⟩
    else ⟨Site.conv_dst_mem,
      library_dst_desc L sh engine_kind conv_input_f conv_wei_f conv_dst_f⟩)

end layout_from_library

namespace conv_reshape

/-- The two durations a status line prints. -/
def Line.durations {D : Type} : Line D → Option (D × D)
  | Line.status _ _ _ _ suboptimal_duration optimal_duration =>
    some (suboptimal_duration, optimal_duration)
  | Line.success _ _ _ => none

end conv_reshape
/-! ## The loops of `main` in closed form -/

namespace conv_reshape

theorem for_loop_zero {σ : Type} (body : Nat → σ → σ) (s : σ) : for_loop 0 body s = s := by
  simp [for_loop]

theorem for_loop_succ {σ : Type} (n : Nat) (body : Nat → σ → σ) (s : σ) :
    for_loop (n + 1) body s = body n (for_loop n body s) := by
  simp [for_loop, List.range_succ, List.foldl_append]

theorem for_loop_congr {σ : Type} (n : Nat) (f g : Nat → σ → σ)
    (h : ∀ i, i < n → ∀ s, f i s = g i s) (s : σ) : for_loop n f s = for_loop n g s := by
  induction n with
  | zero => simp [for_loop_zero]
  | succ n ih =>
    rw [for_loop_succ, for_loop_succ, ih (fun i hi => h i (Nat.lt_succ_of_lt hi)),
      h n (Nat.lt_succ_self n)]

theorem for_loop_add {σ : Type} (p q : Nat) (f : Nat → σ → σ) (s : σ) :
    for_loop (p + q) f s = for_loop q (fun j => f (p + j)) (for_loop p f s) := by
  induction q with
  | zero => simp [for_loop_zero]
  | succ q ih => rw [← Nat.add_assoc, for_loop_succ, for_loop_succ, ih]

/-- Two nested counting loops are one loop over the pairs in lexicographic order. -/
theorem for_loop_nested {σ : Type} (a b : Nat) (F : Nat → Nat → σ → σ) (s : σ) :
    for_loop a (fun i s => for_loop b (fun j s => F i j s) s) s
      = for_loop (a * b) (fun c s => F (c / b) (c % b) s) s := by
  induction a with
  | zero => simp [for_loop_zero]
  | succ a ih =>
    rw [for_loop_succ, ih, Nat.succ_mul, for_loop_add]
    apply for_loop_congr
    intro j hj t
    have hb : 0 < b := Nat.lt_of_le_of_lt (Nat.zero_le j) hj
    have h1 : (a * b + j) / b = a := by
      rw [Nat.mul_comm, Nat.mul_add_div hb, Nat.div_eq_of_lt hj, Nat.add_zero]
    have h2 : (a * b + j) % b = j := by
      rw [Nat.mul_comm, Nat.mul_add_mod, Nat.mod_eq_of_lt hj]
    rw [h1, h2]

theorem for_loop_checked_succ {σ : Type} (n : Nat) (body : Nat → σ → Option σ) (s : σ) :
    for_loop_checked (n + 1) body s = (for_loop_checked n body s).bind (body n) := by
  simp [for_loop_checked, List.range_succ, List.foldlM_append]

/-- A checked loop whose body succeeds at every index below the bound is the plain loop. -/
theorem for_loop_checked_eq_some {σ : Type} (n : Nat) (f : Nat → σ → Option σ)
    (g : Nat → σ → σ) (h : ∀ i, i < n → ∀ s, f i s = some (g i s)) (s : σ) :
    for_loop_checked n f s = some (for_loop n g s) := by
  induction n with
  | zero => simp [for_loop_checked, for_loop]
  | succ n ih =>
    rw [for_loop_checked_succ, ih (fun i hi => h i (Nat.lt_succ_of_lt hi)), for_loop_succ]
    simp [h n (Nat.lt_succ_self n)]

end conv_reshape

namespace conv_reshape

theorem timing_loop_steps {D : Type} [Zero D] [Add D] (ret : Nat → D) (c : Call) (s : MainState D) (r : Nat) :
    for_loop r
        (fun _ p =>
          let q := call_conv_format ret c p.2
          (p.1 + q.1, q.2))
        ((0 : D), s)
      = (accumulate ((List.range r).map fun i => ret (s.calls.length + i)),
          { s with calls := s.calls ++ List.replicate r c }) := by
  induction r with
  | zero => simp [for_loop_zero, accumulate]
  | succ r ih =>
    rw [for_loop_succ, ih]
    simp [call_conv_format, accumulate, List.range_succ, List.foldl_append,
      List.replicate_succ']

theorem timing_loop_eq {D : Type} [Zero D] [Add D] (ret : Nat → D) (c : Call) (s : MainState D) :
    timing_loop ret c s
      = (accumulate ((List.range repeat_times).map fun i => ret (s.calls.length + i)),
          { s with calls := s.calls ++ List.replicate repeat_times c }) := by
  unfold timing_loop
  exact timing_loop_steps ret c s repeat_times

theorem combination_eq {D : Type} [Zero D] [Add D] [LT D]
    [DecidableRel (fun a b : D => a < b)] (engine_kind : engine.kind) (ret : Nat → D) (m n k : Nat)
    (input_tag wei_tag dst_tag : mf) (s : MainState D) :
    combination engine_kind ret m n k input_tag wei_tag dst_tag s
      = { calls := s.calls
            ++ List.replicate repeat_times
                (⟨engine_kind, input_tag, wei_tag, dst_tag, input_tag, wei_tag, dst_tag⟩ : Call)
            ++ List.replicate repeat_times
                (⟨engine_kind, input_tag, wei_tag, dst_tag,
                  format_tag.any, format_tag.any, format_tag.any⟩ : Call)
          out := s.out
            ++ Line.status s.success_cnt m n k
                (accumulate ((List.range repeat_times).map fun i => ret (s.calls.length + i)))
                (accumulate ((List.range repeat_times).map fun i =>
                  ret (s.calls.length + repeat_times + i)))
              :: (if accumulate ((List.range repeat_times).map fun i =>
                      ret (s.calls.length + i))
                    < accumulate ((List.range repeat_times).map fun i =>
                      ret (s.calls.length + repeat_times + i))
                  then [Line.success m n k] else [])
          success_cnt := s.success_cnt
            + (if accumulate ((List.range repeat_times).map fun i =>
                      ret (s.calls.length + i))
                    < accumulate ((List.range repeat_times).map fun i =>
                      ret (s.calls.length + repeat_times + i))
                then 1 else 0) } := by
  unfold combination
  simp only [timing_loop_eq, List.length_append, List.length_replicate]
  split <;> simp

end conv_reshape

namespace conv_reshape

theorem tags_getElem?_eq (i : Nat) (h : i < tags.length) : tags[i]? = some (tag_at i) := by
  simp [tag_at, List.getD, List.getElem?_eq_getElem h]

theorem wei_tags_length_le : wei_tags.length ≤ tags.length := by decide

/-- No read of `tags` in `main` is out of range, so `main` is its three plain loops. -/
theorem main_eq_nested {D : Type} [Zero D] [Add D] [LT D]
    [DecidableRel (fun a b : D => a < b)] (engine_kind : engine.kind) (ret : Nat → D) :
    main engine_kind ret
      = some (for_loop tags.length
          (fun m s => for_loop wei_tags.length
            (fun n s => for_loop tags.length
              (fun k s =>
                combination engine_kind ret m n k (tag_at m) (tag_at n) (tag_at k) s) s) s)
          { calls := [], out := [], success_cnt := 0 }) := by
  unfold main
  apply for_loop_checked_eq_some
  intro m hm s
  rw [tags_getElem?_eq m hm, Option.some_bind]
  apply for_loop_checked_eq_some
  intro n hn s
  rw [tags_getElem?_eq n (Nat.lt_of_lt_of_le hn wei_tags_length_le), Option.some_bind]
  apply for_loop_checked_eq_some
  intro k hk s
  rw [tags_getElem?_eq k hk, Option.some_bind]

/-- The three loops of `main` as one loop over the combination numbers. -/
theorem main_eq_flat {D : Type} [Zero D] [Add D] [LT D]
    [DecidableRel (fun a b : D => a < b)] (engine_kind : engine.kind) (ret : Nat → D) :
    main engine_kind ret
      = some (for_loop combinations
          (fun c s =>
            combination engine_kind ret (combo_m c) (combo_n c) (combo_k c)
              (tag_at (combo_m c)) (tag_at (combo_n c)) (tag_at (combo_k c)) s)
          { calls := [], out := [], success_cnt := 0 }) := by
  rw [main_eq_nested]
  apply congrArg some
  have inner : ∀ (m : Nat) (s : MainState D),
      for_loop wei_tags.length
          (fun n s => for_loop tags.length
            (fun k s =>
              combination engine_kind ret m n k (tag_at m) (tag_at n) (tag_at k) s) s) s
        = for_loop (wei_tags.length * tags.length)
            (fun j s =>
              combination engine_kind ret m (j / tags.length) (j % tags.length) (tag_at m)
                (tag_at (j / tags.length)) (tag_at (j % tags.length)) s) s := by
    intro m s
    exact for_loop_nested wei_tags.length tags.length
      (fun n k s => combination engine_kind ret m n k (tag_at m) (tag_at n) (tag_at k) s) s
  simp only [inner]
  rw [for_loop_nested tags.length (wei_tags.length * tags.length)
    (fun m j s =>
      combination engine_kind ret m (j / tags.length) (j % tags.length) (tag_at m)
        (tag_at (j / tags.length)) (tag_at (j % tags.length)) s)]
  have hsize : tags.length * (wei_tags.length * tags.length) = combinations := by decide
  rw [hsize]
  apply for_loop_congr
  intro c _ s
  have hn : c % (wei_tags.length * tags.length) / tags.length = combo_n c := by
    simp only [combo_n, tags, wei_tags, List.length_cons, List.length_nil]
    omega
  have hk : c % (wei_tags.length * tags.length) % tags.length = combo_k c := by
    simp only [combo_k, tags, wei_tags, List.length_cons, List.length_nil]
    omega
  simp only [hn, hk, combo_m]

end conv_reshape

namespace conv_reshape

theorem expected_calls_length (engine_kind : engine.kind) (c : Nat) :
    ((List.range c).flatMap fun j =>
      List.replicate repeat_times (suboptimal_call engine_kind j)
        ++ List.replicate repeat_times (optimal_call engine_kind j)).length
      = c * calls_per_combination := by
  induction c with
  | zero => simp
  | succ c ih =>
    rw [List.range_succ, List.flatMap_append, List.length_append, ih]
    simp [calls_per_combination, Nat.succ_mul]

theorem successes_before_succ {D : Type} [Zero D] [Add D] [LT D]
    [DecidableRel (fun a b : D => a < b)] (ret : Nat → D) (c : Nat) :
    successes_before ret (c + 1) = successes_before ret c + (if wins ret c then 1 else 0) := by
  unfold successes_before
  rw [List.range_succ, List.filter_append, List.length_append]
  by_cases h : wins ret c = true <;> simp [h]

/-- After `c` combinations the state of `main` is the expected one. -/
theorem run_closed {D : Type} [Zero D] [Add D] [LT D]
    [DecidableRel (fun a b : D => a < b)] (engine_kind : engine.kind) (ret : Nat → D)
    (c : Nat) :
    for_loop c
        (fun c s =>
          combination engine_kind ret (combo_m c) (combo_n c) (combo_k c)
            (tag_at (combo_m c)) (tag_at (combo_n c)) (tag_at (combo_k c)) s)
        { calls := [], out := [], success_cnt := 0 }
      = expected_state engine_kind ret c := by
  induction c with
  | zero => simp [for_loop_zero, expected_state, successes_before]
  | succ c ih =>
    rw [for_loop_succ, ih, combination_eq]
    have hlen : (expected_state engine_kind ret c).calls.length
        = c * calls_per_combination := expected_calls_length engine_kind c
    rw [hlen]
    have hw : (accumulate ((List.range repeat_times).map fun i =>
          ret (c * calls_per_combination + i))
        < accumulate ((List.range repeat_times).map fun i =>
          ret (c * calls_per_combination + repeat_times + i))) ↔ wins ret c = true := by
      simp [wins, suboptimal_total, optimal_total]
    simp only [hw]
    simp only [expected_state, List.range_succ, List.flatMap_append, List.flatMap_singleton,
      List.append_assoc, List.flatMap_nil, List.append_nil, successes_before_succ,
      expected_lines, suboptimal_call, optimal_call, suboptimal_total, optimal_total,
      MainState.mk.injEq, true_and]
    by_cases h : wins ret c = true <;> simp [h]

/-- The run of `main` in closed form: it returns, in the expected final state. -/
theorem main_eq_expected {D : Type} [Zero D] [Add D] [LT D]
    [DecidableRel (fun a b : D => a < b)] (engine_kind : engine.kind) (ret : Nat → D) :
    main engine_kind ret = some (expected_state engine_kind ret combinations) := by
  rw [main_eq_flat, run_closed]

end conv_reshape

/-! ## The traces of `conv_format` -/

section trace_lemmas

variable {Desc : Type}

theorem executed_reorders_append (a b : List (Event Desc)) :
    executed_reorders (a ++ b) = executed_reorders a ++ executed_reorders b := by
  simp [executed_reorders]

theorem conv_operands_append (a b : List (Event Desc)) :
    conv_operands (a ++ b) = conv_operands a ++ conv_operands b := by
  simp [conv_operands]

theorem executed_reorders_setup_events (su : Setup Desc) :
    executed_reorders (setup_events su) = [] := by
  unfold setup_events
  cases su.need_reorder_src <;> cases su.need_reorder_weights <;>
    cases su.need_reorder_dsts <;> simp [executed_reorders, Event.reorder_args]

theorem conv_operands_setup_events (su : Setup Desc) :
    conv_operands (setup_events su) = [] := by
  unfold setup_events
  cases su.need_reorder_src <;> cases su.need_reorder_weights <;>
    cases su.need_reorder_dsts <;> simp [conv_operands, Event.conv_args]

theorem executed_reorders_reorder_events (su : Setup Desc) :
    executed_reorders (reorder_events su)
      = (if su.need_reorder_src then [(su.src_mem, su.conv_src_mem)] else [])
        ++ (if su.need_reorder_weights then [(su.weights_mem, su.conv_weights_mem)] else [])
        ++ (if su.need_reorder_dsts then [(su.conv_dst_mem, su.dst_mem)] else []) := by
  unfold reorder_events
  cases su.need_reorder_src <;> cases su.need_reorder_weights <;>
    cases su.need_reorder_dsts <;> simp [executed_reorders, Event.reorder_args]

theorem conv_operands_reorder_events (su : Setup Desc) :
    conv_operands (reorder_events su) = [] := by
  unfold reorder_events
  cases su.need_reorder_src <;> cases su.need_reorder_weights <;>
    cases su.need_reorder_dsts <;> simp [conv_operands, Event.conv_args]

theorem executed_reorders_run_events (su : Setup Desc) :
    executed_reorders (run_events su) = [] := by
  simp [run_events, executed_reorders, Event.reorder_args]

theorem conv_operands_run_events (su : Setup Desc) :
    conv_operands (run_events su)
      = [(su.conv_src_mem, su.conv_weights_mem, su.conv_dst_mem)] := by
  simp [run_events, conv_operands, Event.conv_args]

/-- A loop whose body appends the same events each time: one more iteration. -/
theorem flatMap_const_range_succ {α : Type} (l : List α) (n : Nat) :
    (List.range (n + 1)).flatMap (fun _ => l) = l ++ (List.range n).flatMap (fun _ => l) := by
  rw [List.range_succ_eq_map, List.flatMap_cons, List.flatMap_map]

theorem flatMap_const_range_one {α : Type} (l : List α) :
    (List.range 1).flatMap (fun _ => l) = l := by
  rw [flatMap_const_range_succ]
  simp

theorem executed_reorders_loop (su : Setup Desc) (n : Nat) :
    executed_reorders ((List.range n).flatMap fun _ => run_events su) = [] := by
  induction n with
  | zero => simp [executed_reorders]
  | succ n ih =>
    rw [flatMap_const_range_succ, executed_reorders_append, ih, executed_reorders_run_events]
    rfl

theorem conv_operands_loop (su : Setup Desc) (n : Nat) :
    conv_operands ((List.range n).flatMap fun _ => run_events su)
      = List.replicate n (su.conv_src_mem, su.conv_weights_mem, su.conv_dst_mem) := by
  induction n with
  | zero => simp [conv_operands]
  | succ n ih =>
    rw [flatMap_const_range_succ, conv_operands_append, ih, conv_operands_run_events]
    rfl

end trace_lemmas

section layout_decision

variable {Desc : Type} [DecidableEq Desc]

theorem setup_reorders (L : Library Desc) (sh : Shape) (engine_kind : engine.kind)
    (input_f wei_f dst_f conv_input_f conv_wei_f conv_dst_f : mf) :
    executed_reorders (reorder_events
        (setup L sh engine_kind input_f wei_f dst_f conv_input_f conv_wei_f conv_dst_f))
      = expected_reorders
        (setup L sh engine_kind input_f wei_f dst_f conv_input_f conv_wei_f conv_dst_f) := by
  rw [executed_reorders_reorder_events]
  simp only [setup, expected_reorders, ne_eq, decide_not, Bool.not_eq_true',
    decide_eq_false_iff_not, ite_not, Bool.not_eq_eq_eq_not, Bool.not_true]
  split <;> split <;> split <;> simp_all

theorem setup_operands (L : Library Desc) (sh : Shape) (engine_kind : engine.kind)
    (input_f wei_f dst_f conv_input_f conv_wei_f conv_dst_f : mf) :
    ((setup L sh engine_kind input_f wei_f dst_f conv_input_f conv_wei_f
          conv_dst_f).conv_src_mem,
      (setup L sh engine_kind input_f wei_f dst_f conv_input_f conv_wei_f
          conv_dst_f).conv_weights_mem,
      (setup L sh engine_kind input_f wei_f dst_f conv_input_f conv_wei_f
          conv_dst_f).conv_dst_mem)
      = expected_operands
        (setup L sh engine_kind input_f wei_f dst_f conv_input_f conv_wei_f conv_dst_f) := by
  simp only [setup, expected_operands, ne_eq, decide_not, Bool.not_eq_true',
    decide_eq_false_iff_not, ite_not, Bool.not_eq_eq_eq_not, Bool.not_true]

end layout_decision

/-- Both ends of a reorder `conv_format` executes are memories made earlier in the call. -/
theorem reorder_ends_created {Desc : Type} (su : Setup Desc)
    (p : memory Desc × memory Desc) (h : p ∈ executed_reorders (reorder_events su)) :
    Event.mk_memory p.1 ∈ setup_events su ∧ Event.mk_memory p.2 ∈ setup_events su := by
  rw [executed_reorders_reorder_events] at h
  unfold setup_events
  revert h
  cases su.need_reorder_src <;> cases su.need_reorder_weights <;>
    cases su.need_reorder_dsts <;> intro h <;> simp_all <;> aesop

section format_traces

variable {Desc : Type} [DecidableEq Desc]

theorem conv_reshape_reorders (L : Library Desc) (sh : Shape) (engine_kind : engine.kind)
    (input_f wei_f dst_f conv_input_f conv_wei_f conv_dst_f : mf) :
    executed_reorders (conv_reshape.conv_format_at L sh engine_kind input_f wei_f dst_f
        conv_input_f conv_wei_f conv_dst_f)
      = expected_reorders
        (setup L sh engine_kind input_f wei_f dst_f conv_input_f conv_wei_f conv_dst_f) := by
  unfold conv_reshape.conv_format_at
  simp only [executed_reorders_append, executed_reorders_setup_events, setup_reorders,
    executed_reorders_run_events]
  simp [executed_reorders, primitive_events, Event.reorder_args]

theorem conv_reshape_operands (L : Library Desc) (sh : Shape) (engine_kind : engine.kind)
    (input_f wei_f dst_f conv_input_f conv_wei_f conv_dst_f : mf) :
    conv_operands (conv_reshape.conv_format_at L sh engine_kind input_f wei_f dst_f
        conv_input_f conv_wei_f conv_dst_f)
      = [expected_operands
        (setup L sh engine_kind input_f wei_f dst_f conv_input_f conv_wei_f conv_dst_f)] := by
  unfold conv_reshape.conv_format_at
  simp only [conv_operands_append, conv_operands_setup_events, conv_operands_reorder_events,
    conv_operands_run_events, setup_operands]
  simp [conv_operands, primitive_events, Event.conv_args]

theorem conv_reorders (L : Library Desc) (sh : Shape) (engine_kind : engine.kind)
    (input_f wei_f dst_f conv_input_f conv_wei_f conv_dst_f : mf) (repeat_times : Int) :
    executed_reorders (conv.conv_format_at L sh engine_kind input_f wei_f dst_f
        conv_input_f conv_wei_f conv_dst_f repeat_times)
      = expected_reorders
        (setup L sh engine_kind input_f wei_f dst_f conv_input_f conv_wei_f conv_dst_f) := by
  unfold conv.conv_format_at
  simp only [executed_reorders_append, executed_reorders_setup_events, setup_reorders,
    executed_reorders_loop]
  simp [executed_reorders, primitive_events, Event.reorder_args]

theorem conv_operands_eq (L : Library Desc) (sh : Shape) (engine_kind : engine.kind)
    (input_f wei_f dst_f conv_input_f conv_wei_f conv_dst_f : mf) (repeat_times : Int) :
    conv_operands (conv.conv_format_at L sh engine_kind input_f wei_f dst_f
        conv_input_f conv_wei_f conv_dst_f repeat_times)
      = List.replicate repeat_times.toNat (expected_operands
        (setup L sh engine_kind input_f wei_f dst_f conv_input_f conv_wei_f conv_dst_f)) := by
  unfold conv.conv_format_at
  simp only [conv_operands_append, conv_operands_setup_events, conv_operands_reorder_events,
    conv_operands_loop, setup_operands]
  simp [conv_operands, primitive_events, Event.conv_args]

end format_traces

section layout_from_library_lemmas

variable {Desc : Type} [DecidableEq Desc]

theorem expected_reorders_setup (L : Library Desc) (sh : Shape) (engine_kind : engine.kind)
    (input_f wei_f dst_f conv_input_f conv_wei_f conv_dst_f : mf) :
    expected_reorders
        (setup L sh engine_kind input_f wei_f dst_f conv_input_f conv_wei_f conv_dst_f)
      = reorders_by_descriptor L sh engine_kind input_f wei_f dst_f conv_input_f conv_wei_f
        conv_dst_f := rfl

theorem expected_operands_setup (L : Library Desc) (sh : Shape) (engine_kind : engine.kind)
    (input_f wei_f dst_f conv_input_f conv_wei_f conv_dst_f : mf) :
    expected_operands
        (setup L sh engine_kind input_f wei_f dst_f conv_input_f conv_wei_f conv_dst_f)
      = operands_by_descriptor L sh engine_kind input_f wei_f dst_f conv_input_f conv_wei_f
        conv_dst_f := rfl

/-- Among the expected reorders there is one out of the caller's source memory exactly when
the reported source descriptor differs from the caller's. -/
theorem src_reorder_iff (L : Library Desc) (sh : Shape) (engine_kind : engine.kind)
    (input_f wei_f dst_f conv_input_f conv_wei_f conv_dst_f : mf) :
    (∃ p ∈ reorders_by_descriptor L sh engine_kind input_f wei_f dst_f conv_input_f
        conv_wei_f conv_dst_f, p.1.site = Site.src_mem)
      ↔ library_src_desc L sh engine_kind conv_input_f conv_wei_f conv_dst_f
        ≠ src_md L sh input_f := by
  unfold reorders_by_descriptor
  split <;> split <;> split <;> simp_all

/-- Among the expected reorders there is one out of the caller's weights memory exactly when
the reported weights descriptor differs from the caller's. -/
theorem weights_reorder_iff (L : Library Desc) (sh : Shape) (engine_kind : engine.kind)
    (input_f wei_f dst_f conv_input_f conv_wei_f conv_dst_f : mf) :
    (∃ p ∈ reorders_by_descriptor L sh engine_kind input_f wei_f dst_f conv_input_f
        conv_wei_f conv_dst_f, p.1.site = Site.weights_mem)
      ↔ library_weights_desc L sh engine_kind conv_input_f conv_wei_f conv_dst_f
        ≠ weights_md L sh wei_f := by
  unfold reorders_by_descriptor
  split <;> split <;> split <;> simp_all

/-- Among the expected reorders there is one into the caller's destination memory exactly
when the reported destination descriptor differs from the caller's. -/
theorem dst_reorder_iff (L : Library Desc) (sh : Shape) (engine_kind : engine.kind)
    (input_f wei_f dst_f conv_input_f conv_wei_f conv_dst_f : mf) :
    (∃ p ∈ reorders_by_descriptor L sh engine_kind input_f wei_f dst_f conv_input_f
        conv_wei_f conv_dst_f, p.2.site = Site.dst_mem)
      ↔ library_dst_desc L sh engine_kind conv_input_f conv_wei_f conv_dst_f
        ≠ dst_md L sh dst_f := by
  unfold reorders_by_descriptor
  split <;> split <;> split <;> simp_all

end layout_from_library_lemmas

/-- C3: in `conv_format` of both programs, for every library, engine kind, six tags and repeat
count, and for each of source, weights and destination on its own: the reorders executed are
exactly `reorders_by_descriptor`, which is written from the library alone and has, for a
tensor, one reorder between the caller's memory and a memory made in the call for the
descriptor the primitive descriptor reports when that descriptor differs from the caller's,
and none when the two are equal; so a reorder touching the caller's source (weights,
destination) memory is executed if and only if the reported source (weights, destination)
descriptor differs from the caller's; both ends of every executed reorder are memories made in
the call; and every convolution execute gets `operands_by_descriptor`, which for a tensor with
equal descriptors is the caller's memory object itself. -/
theorem C3_reorder_iff_descriptors_differ {Desc : Type} [DecidableEq Desc] (L : Library Desc)
    (engine_kind : engine.kind)
    (input_f wei_f dst_f conv_input_f conv_wei_f conv_dst_f : mf) (repeat_times : Int) :
    (executed_reorders (conv_reshape.conv_format L engine_kind input_f wei_f dst_f
          conv_input_f conv_wei_f conv_dst_f)
        = reorders_by_descriptor L conv_reshape.shape engine_kind input_f wei_f dst_f
          conv_input_f conv_wei_f conv_dst_f
      ∧ conv_operands (conv_reshape.conv_format L engine_kind input_f wei_f dst_f
          conv_input_f conv_wei_f conv_dst_f)
        = [operands_by_descriptor L conv_reshape.shape engine_kind input_f wei_f dst_f
          conv_input_f conv_wei_f conv_dst_f]
      ∧ ((∃ p ∈ executed_reorders (conv_reshape.conv_format L engine_kind input_f wei_f dst_f
            conv_input_f conv_wei_f conv_dst_f), p.1.site = Site.src_mem)
          ↔ L.src_desc engine_kind
              (L.desc [1, 128, 14, 14] data_type.f32 conv_input_f)
              (L.desc [256, 128, 3, 3] data_type.f32 conv_wei_f)
              (L.desc [1, 256, 14, 14] data_type.f32 conv_dst_f)
            ≠ L.desc [1, 128, 14, 14] data_type.f32 input_f)
      ∧ ((∃ p ∈ executed_reorders (conv_reshape.conv_format L engine_kind input_f wei_f dst_f
            conv_input_f conv_wei_f conv_dst_f), p.1.site = Site.weights_mem)
          ↔ L.weights_desc engine_kind
              (L.desc [1, 128, 14, 14] data_type.f32 conv_input_f)
              (L.desc [256, 128, 3, 3] data_type.f32 conv_wei_f)
              (L.desc [1, 256, 14, 14] data_type.f32 conv_dst_f)
            ≠ L.desc [256, 128, 3, 3] data_type.f32 wei_f)
      ∧ ((∃ p ∈ executed_reorders (conv_reshape.conv_format L engine_kind input_f wei_f dst_f
            conv_input_f conv_wei_f conv_dst_f), p.2.site = Site.dst_mem)
          ↔ L.dst_desc engine_kind
              (L.desc [1, 128, 14, 14] data_type.f32 conv_input_f)
              (L.desc [256, 128, 3, 3] data_type.f32 conv_wei_f)
              (L.desc [1, 256, 14, 14] data_type.f32 conv_dst_f)
            ≠ L.desc [1, 256, 14, 14] data_type.f32 dst_f)
      ∧ ∀ p ∈ executed_reorders (conv_reshape.conv_format L engine_kind input_f wei_f dst_f
          conv_input_f conv_wei_f conv_dst_f),
        Event.mk_memory p.1 ∈ conv_reshape.conv_format L engine_kind input_f wei_f dst_f
            conv_input_f conv_wei_f conv_dst_f
          ∧ Event.mk_memory p.2 ∈ conv_reshape.conv_format L engine_kind input_f wei_f dst_f
            conv_input_f conv_wei_f conv_dst_f)
    ∧ (executed_reorders (conv.conv_format L engine_kind input_f wei_f dst_f
          conv_input_f conv_wei_f conv_dst_f repeat_times)
        = reorders_by_descriptor L conv.shape engine_kind input_f wei_f dst_f
          conv_input_f conv_wei_f conv_dst_f
      ∧ conv_operands (conv.conv_format L engine_kind input_f wei_f dst_f
          conv_input_f conv_wei_f conv_dst_f repeat_times)
        = List.replicate repeat_times.toNat
          (operands_by_descriptor L conv.shape engine_kind input_f wei_f dst_f
            conv_input_f conv_wei_f conv_dst_f)
      ∧ ((∃ p ∈ executed_reorders (conv.conv_format L engine_kind input_f wei_f dst_f
            conv_input_f conv_wei_f conv_dst_f repeat_times), p.1.site = Site.src_mem)
          ↔ L.src_desc engine_kind
              (L.desc [1, 3, 200, 200] data_type.f32 conv_input_f)
              (L.desc [3, 3, 3, 3] data_type.f32 conv_wei_f)
              (L.desc [1, 3, 200, 200] data_type.f32 conv_dst_f)
            ≠ L.desc [1, 3, 200, 200] data_type.f32 input_f)
      ∧ ((∃ p ∈ executed_reorders (conv.conv_format L engine_kind input_f wei_f dst_f
            conv_input_f conv_wei_f conv_dst_f repeat_times), p.1.site = Site.weights_mem)
          ↔ L.weights_desc engine_kind
              (L.desc [1, 3, 200, 200] data_type.f32 conv_input_f)
              (L.desc [3, 3, 3, 3] data_type.f32 conv_wei_f)
              (L.desc [1, 3, 200, 200] data_type.f32 conv_dst_f)
            ≠ L.desc [3, 3, 3, 3] data_type.f32 wei_f)
      ∧ ((∃ p ∈ executed_reorders (conv.conv_format L engine_kind input_f wei_f dst_f
            conv_input_f conv_wei_f conv_dst_f repeat_times), p.2.site = Site.dst_mem)
          ↔ L.dst_desc engine_kind
              (L.desc [1, 3, 200, 200] data_type.f32 conv_input_f)
              (L.desc [3, 3, 3, 3] data_type.f32 conv_wei_f)
              (L.desc [1, 3, 200, 200] data_type.f32 conv_dst_f)
            ≠ L.desc [1, 3, 200, 200] data_type.f32 dst_f)
      ∧ ∀ p ∈ executed_reorders (conv.conv_format L engine_kind input_f wei_f dst_f
          conv_input_f conv_wei_f conv_dst_f repeat_times),
        Event.mk_memory p.1 ∈ conv.conv_format L engine_kind input_f wei_f dst_f
            conv_input_f conv_wei_f conv_dst_f repeat_times
          ∧ Event.mk_memory p.2 ∈ conv.conv_format L engine_kind input_f wei_f dst_f
            conv_input_f conv_wei_f conv_dst_f repeat_times) := by
  have hr : executed_reorders (conv_reshape.conv_format L engine_kind input_f wei_f dst_f
        conv_input_f conv_wei_f conv_dst_f)
      = reorders_by_descriptor L conv_reshape.shape engine_kind input_f wei_f dst_f
        conv_input_f conv_wei_f conv_dst_f := by
    rw [conv_reshape.conv_format, conv_reshape_reorders, expected_reorders_setup]
  have hc : executed_reorders (conv.conv_format L engine_kind input_f wei_f dst_f
        conv_input_f conv_wei_f conv_dst_f repeat_times)
      = reorders_by_descriptor L conv.shape engine_kind input_f wei_f dst_f
        conv_input_f conv_wei_f conv_dst_f := by
    rw [conv.conv_format, conv_reorders, expected_reorders_setup]
  refine ⟨⟨hr, ?_, ?_, ?_, ?_, ?_⟩, ⟨hc, ?_, ?_, ?_, ?_, ?_⟩⟩
  · rw [conv_reshape.conv_format, conv_reshape_operands, expected_operands_setup]
  · rw [hr]
    exact src_reorder_iff L conv_reshape.shape engine_kind _ _ _ _ _ _
  · rw [hr]
    exact weights_reorder_iff L conv_reshape.shape engine_kind _ _ _ _ _ _
  · rw [hr]
    exact dst_reorder_iff L conv_reshape.shape engine_kind _ _ _ _ _ _
  · intro p hp
    have hp2 : p ∈ executed_reorders (reorder_events (setup L conv_reshape.shape engine_kind
        input_f wei_f dst_f conv_input_f conv_wei_f conv_dst_f)) := by
      rw [setup_reorders, expected_reorders_setup, ← hr]
      exact hp
    have := reorder_ends_created _ p hp2
    simp only [conv_reshape.conv_format, conv_reshape.conv_format_at, List.mem_append]
    exact ⟨Or.inl (Or.inl (Or.inl (Or.inl (Or.inr this.1)))),
      Or.inl (Or.inl (Or.inl (Or.inl (Or.inr this.2))))⟩
  · rw [conv.conv_format, conv_operands_eq, expected_operands_setup]
  · rw [hc]
    exact src_reorder_iff L conv.shape engine_kind _ _ _ _ _ _
  · rw [hc]
    exact weights_reorder_iff L conv.shape engine_kind _ _ _ _ _ _
  · rw [hc]
    exact dst_reorder_iff L conv.shape engine_kind _ _ _ _ _ _
  · intro p hp
    have hp2 : p ∈ executed_reorders (reorder_events (setup L conv.shape engine_kind
        input_f wei_f dst_f conv_input_f conv_wei_f conv_dst_f)) := by
      rw [setup_reorders, expected_reorders_setup, ← hc]
      exact hp
    have := reorder_ends_created _ p hp2
    simp only [conv.conv_format, conv.conv_format_at, List.mem_append]
    exact ⟨Or.inl (Or.inl (Or.inl (Or.inl (Or.inl (Or.inr this.1))))),
      Or.inl (Or.inl (Or.inl (Or.inl (Or.inl (Or.inr this.2)))))⟩

/-! ## Waits, clock samples and the timed interval -/

section wait_lemmas

variable {Desc : Type}

theorem execute_then_wait_cons (e : Event Desc) (rest : List (Event Desc))
    (h : e.is_execute = false) :
    execute_then_wait (e :: rest) = execute_then_wait rest := by
  simp [execute_then_wait, h]

theorem execute_then_wait_skip (pre rest : List (Event Desc))
    (h : pre.all (fun e => !e.is_execute) = true) :
    execute_then_wait (pre ++ rest) = execute_then_wait rest := by
  induction pre with
  | nil => rfl
  | cons e pre ih =>
    simp only [List.all_cons, Bool.and_eq_true, Bool.not_eq_true'] at h
    rw [List.cons_append, execute_then_wait_cons _ _ h.1, ih h.2]

/-- The check fails on a trace that samples the clock right after an execute. -/
theorem execute_then_wait_needs_wait (a b c : memory Desc) :
    execute_then_wait [Event.conv_execute a b c, Event.clock] = false
    ∧ execute_then_wait [Event.conv_execute a b c, Event.reorder_execute a b, Event.wait]
      = false := by
  simp [execute_then_wait, Event.is_execute, Event.is_wait]

theorem execute_then_wait_setup_events (su : Setup Desc) (rest : List (Event Desc)) :
    execute_then_wait (setup_events su ++ rest) = execute_then_wait rest := by
  unfold setup_events
  cases su.need_reorder_src <;> cases su.need_reorder_weights <;>
    cases su.need_reorder_dsts <;>
    simp [execute_then_wait, Event.is_execute]

theorem execute_then_wait_reorder_events (su : Setup Desc) (rest : List (Event Desc)) :
    execute_then_wait (reorder_events su ++ rest) = execute_then_wait rest := by
  unfold reorder_events
  cases su.need_reorder_src <;> cases su.need_reorder_weights <;>
    cases su.need_reorder_dsts <;>
    simp [execute_then_wait, Event.is_execute, Event.is_wait]

theorem execute_then_wait_primitive_events (L : Library Desc) (engine_kind : engine.kind)
    (su : Setup Desc) (rest : List (Event Desc)) :
    execute_then_wait (primitive_events L engine_kind su ++ rest)
      = execute_then_wait rest := by
  simp [primitive_events, execute_then_wait, Event.is_execute]

theorem execute_then_wait_run_events (su : Setup Desc) (rest : List (Event Desc)) :
    execute_then_wait (run_events su ++ rest) = execute_then_wait rest := by
  simp [run_events, execute_then_wait, Event.is_execute, Event.is_wait]

theorem execute_then_wait_loop (su : Setup Desc) (n : Nat) (rest : List (Event Desc)) :
    execute_then_wait (((List.range n).flatMap fun _ => run_events su) ++ rest)
      = execute_then_wait rest := by
  induction n with
  | zero => simp
  | succ n ih =>
    rw [flatMap_const_range_succ, List.append_assoc, execute_then_wait_run_events, ih]

end wait_lemmas

/-- C6: in the trace of `conv_format` of both programs, for every repeat count, every execute
(of a reorder or of the convolution) has a wait on the stream as its very next event, so no
execute is followed by another execute or by a clock sample without a wait in between. -/
theorem C6_every_execute_is_followed_by_wait {Desc : Type} [DecidableEq Desc]
    (L : Library Desc) (engine_kind : engine.kind)
    (input_f wei_f dst_f conv_input_f conv_wei_f conv_dst_f : mf) (repeat_times : Int) :
    execute_then_wait (conv_reshape.conv_format L engine_kind input_f wei_f dst_f
        conv_input_f conv_wei_f conv_dst_f) = true
    ∧ execute_then_wait (conv.conv_format L engine_kind input_f wei_f dst_f
        conv_input_f conv_wei_f conv_dst_f repeat_times) = true := by
  constructor
  · simp only [conv_reshape.conv_format, conv_reshape.conv_format_at, List.append_assoc]
    rw [execute_then_wait_skip [Event.mk_engine engine_kind, Event.mk_stream] _ rfl,
      execute_then_wait_skip [Event.clock] _ rfl, execute_then_wait_setup_events,
      execute_then_wait_reorder_events, execute_then_wait_primitive_events,
      execute_then_wait_run_events]
    rfl
  · simp only [conv.conv_format, conv.conv_format_at, List.append_assoc]
    rw [execute_then_wait_skip [Event.mk_engine engine_kind, Event.mk_stream] _ rfl,
      execute_then_wait_setup_events, execute_then_wait_reorder_events,
      execute_then_wait_primitive_events, execute_then_wait_skip [Event.clock] _ rfl,
      execute_then_wait_loop]
    rfl

section clock_lemmas

variable {Desc : Type}

theorem dropWhile_no_clock_append (a b : List (Event Desc))
    (h : a.all (fun e => !e.is_clock) = true) :
    (a ++ b).dropWhile (fun e => !e.is_clock) = b.dropWhile (fun e => !e.is_clock) := by
  induction a with
  | nil => rfl
  | cons e a ih =>
    simp only [List.all_cons, Bool.and_eq_true] at h
    rw [List.cons_append, List.dropWhile_cons, if_pos h.1, ih h.2]

theorem takeWhile_no_clock_until (a b : List (Event Desc))
    (h : a.all (fun e => !e.is_clock) = true) :
    (a ++ Event.clock :: b).takeWhile (fun e => !e.is_clock) = a := by
  induction a with
  | nil => simp [List.takeWhile, Event.is_clock]
  | cons e a ih =>
    simp only [List.all_cons, Bool.and_eq_true] at h
    rw [List.cons_append, List.takeWhile_cons, if_pos h.1, ih h.2]

/-- The timed interval of a trace with two clock samples and none in between. -/
theorem timed_eq (pre mid post : List (Event Desc))
    (hpre : pre.all (fun e => !e.is_clock) = true)
    (hmid : mid.all (fun e => !e.is_clock) = true) :
    timed (pre ++ Event.clock :: (mid ++ Event.clock :: post)) = mid := by
  unfold timed
  rw [dropWhile_no_clock_append _ _ hpre]
  simp only [List.dropWhile_cons, Event.is_clock, Bool.not_true, Bool.false_eq_true,
    if_false, List.drop_succ_cons, List.drop_zero]
  exact takeWhile_no_clock_until mid post hmid

theorem no_clock_setup_events (su : Setup Desc) :
    (setup_events su).all (fun e => !e.is_clock) = true := by
  unfold setup_events
  cases su.need_reorder_src <;> cases su.need_reorder_weights <;>
    cases su.need_reorder_dsts <;> simp [Event.is_clock]

theorem no_clock_reorder_events (su : Setup Desc) :
    (reorder_events su).all (fun e => !e.is_clock) = true := by
  unfold reorder_events
  cases su.need_reorder_src <;> cases su.need_reorder_weights <;>
    cases su.need_reorder_dsts <;> simp [Event.is_clock]

theorem no_clock_primitive_events (L : Library Desc) (engine_kind : engine.kind)
    (su : Setup Desc) :
    (primitive_events L engine_kind su).all (fun e => !e.is_clock) = true := by
  simp [primitive_events, Event.is_clock]

theorem no_clock_run_events (su : Setup Desc) :
    (run_events su).all (fun e => !e.is_clock) = true := by
  simp [run_events, Event.is_clock]

theorem no_clock_loop (su : Setup Desc) (n : Nat) :
    ((List.range n).flatMap fun _ => run_events su).all (fun e => !e.is_clock) = true := by
  induction n with
  | zero => simp
  | succ n ih => rw [flatMap_const_range_succ, List.all_append, ih, no_clock_run_events]; rfl

theorem without_clock_append (a b : List (Event Desc)) :
    without_clock (a ++ b) = without_clock a ++ without_clock b := by
  simp [without_clock]

end clock_lemmas

section timed_intervals

variable {Desc : Type} [DecidableEq Desc]

/-- The timed interval of `conv_format` in `conv_reshape.cpp` is everything the procedure
does after the engine and the stream are made. -/
theorem conv_reshape_timed (L : Library Desc) (sh : Shape) (engine_kind : engine.kind)
    (input_f wei_f dst_f conv_input_f conv_wei_f conv_dst_f : mf) :
    timed (conv_reshape.conv_format_at L sh engine_kind input_f wei_f dst_f
        conv_input_f conv_wei_f conv_dst_f)
      = setup_events
          (setup L sh engine_kind input_f wei_f dst_f conv_input_f conv_wei_f conv_dst_f)
        ++ reorder_events
          (setup L sh engine_kind input_f wei_f dst_f conv_input_f conv_wei_f conv_dst_f)
        ++ primitive_events L engine_kind
          (setup L sh engine_kind input_f wei_f dst_f conv_input_f conv_wei_f conv_dst_f)
        ++ run_events
          (setup L sh engine_kind input_f wei_f dst_f conv_input_f conv_wei_f
            conv_dst_f) := by
  have h := timed_eq [Event.mk_engine engine_kind, Event.mk_stream]
    (setup_events
        (setup L sh engine_kind input_f wei_f dst_f conv_input_f conv_wei_f conv_dst_f)
      ++ reorder_events
        (setup L sh engine_kind input_f wei_f dst_f conv_input_f conv_wei_f conv_dst_f)
      ++ primitive_events L engine_kind
        (setup L sh engine_kind input_f wei_f dst_f conv_input_f conv_wei_f conv_dst_f)
      ++ run_events
        (setup L sh engine_kind input_f wei_f dst_f conv_input_f conv_wei_f conv_dst_f))
    [] rfl
    (by simp only [List.all_append, no_clock_setup_events, no_clock_reorder_events,
          no_clock_primitive_events, no_clock_run_events, Bool.and_self])
  rw [← h]
  simp [conv_reshape.conv_format_at]

/-- The timed interval of `conv_format` in `conv.cpp` is the loop of convolution executes. -/
theorem conv_timed (L : Library Desc) (sh : Shape) (engine_kind : engine.kind)
    (input_f wei_f dst_f conv_input_f conv_wei_f conv_dst_f : mf) (repeat_times : Int) :
    timed (conv.conv_format_at L sh engine_kind input_f wei_f dst_f
        conv_input_f conv_wei_f conv_dst_f repeat_times)
      = (List.range repeat_times.toNat).flatMap fun _ => run_events
          (setup L sh engine_kind input_f wei_f dst_f conv_input_f conv_wei_f
            conv_dst_f) := by
  have h := timed_eq
    ([Event.mk_engine engine_kind, Event.mk_stream]
      ++ setup_events
        (setup L sh engine_kind input_f wei_f dst_f conv_input_f conv_wei_f conv_dst_f)
      ++ reorder_events
        (setup L sh engine_kind input_f wei_f dst_f conv_input_f conv_wei_f conv_dst_f)
      ++ primitive_events L engine_kind
        (setup L sh engine_kind input_f wei_f dst_f conv_input_f conv_wei_f conv_dst_f))
    ((List.range repeat_times.toNat).flatMap fun _ => run_events
      (setup L sh engine_kind input_f wei_f dst_f conv_input_f conv_wei_f conv_dst_f))
    []
    (by simp only [List.all_append, no_clock_setup_events, no_clock_reorder_events,
          no_clock_primitive_events, Bool.and_true]; rfl)
    (no_clock_loop _ _)
  rw [← h]
  simp [conv.conv_format_at]

end timed_intervals

/-! ## The claims on `conv_format` -/

/-- C4 (the code departs from the claim): evaluated on the optimal path of `main`'s first
combination with a library that picks a blocked layout, `conv_format` of `conv_reshape.cpp`
issues the reorder from `conv_dst_mem` into the caller's `dst_mem` third, before the
convolution execute, which is the last operation issued. -/
theorem C4_destination_reorder_is_issued_before_convolution :
    executes (conv_reshape.conv_format blocked_library engine.kind.cpu mf.nchw mf.nchw mf.nchw
        format_tag.any format_tag.any format_tag.any)
      = [ Event.reorder_execute
            ⟨Site.src_mem, ⟨[1, 128, 14, 14], data_type.f32, format_tag.abcd⟩⟩
            ⟨Site.conv_src_mem, ⟨[1, 128, 14, 14], data_type.f32, format_tag.aBcd8b⟩⟩,
          Event.reorder_execute
            ⟨Site.weights_mem, ⟨[256, 128, 3, 3], data_type.f32, format_tag.abcd⟩⟩
            ⟨Site.conv_weights_mem, ⟨[256, 128, 3, 3], data_type.f32, format_tag.aBcd8b⟩⟩,
          Event.reorder_execute
            ⟨Site.conv_dst_mem, ⟨[1, 256, 14, 14], data_type.f32, format_tag.aBcd8b⟩⟩
            ⟨Site.dst_mem, ⟨[1, 256, 14, 14], data_type.f32, format_tag.abcd⟩⟩,
          Event.conv_execute
            ⟨Site.conv_src_mem, ⟨[1, 128, 14, 14], data_type.f32, format_tag.aBcd8b⟩⟩
            ⟨Site.conv_weights_mem, ⟨[256, 128, 3, 3], data_type.f32, format_tag.aBcd8b⟩⟩
            ⟨Site.conv_dst_mem, ⟨[1, 256, 14, 14], data_type.f32, format_tag.aBcd8b⟩⟩ ] := by
  decide

/-- In every call of `conv_format` of `conv_reshape.cpp` the convolution execute is the last
operation issued: the operations are those of the reorder blocks, then the convolution. -/
theorem conv_reshape_executes {Desc : Type} [DecidableEq Desc] (L : Library Desc) (sh : Shape)
    (engine_kind : engine.kind)
    (input_f wei_f dst_f conv_input_f conv_wei_f conv_dst_f : mf) :
    executes (conv_reshape.conv_format_at L sh engine_kind input_f wei_f dst_f
        conv_input_f conv_wei_f conv_dst_f)
      = executes (reorder_events
          (setup L sh engine_kind input_f wei_f dst_f conv_input_f conv_wei_f conv_dst_f))
        ++ [Event.conv_execute
          (setup L sh engine_kind input_f wei_f dst_f conv_input_f conv_wei_f
            conv_dst_f).conv_src_mem
          (setup L sh engine_kind input_f wei_f dst_f conv_input_f conv_wei_f
            conv_dst_f).conv_weights_mem
          (setup L sh engine_kind input_f wei_f dst_f conv_input_f conv_wei_f
            conv_dst_f).conv_dst_mem] := by
  have hs : ∀ su : Setup Desc, executes (setup_events su) = [] := by
    intro su
    unfold setup_events
    cases su.need_reorder_src <;> cases su.need_reorder_weights <;>
      cases su.need_reorder_dsts <;> simp [executes, Event.is_execute]
  unfold conv_reshape.conv_format_at
  simp only [executes, List.filter_append] at hs ⊢
  rw [hs]
  simp [primitive_events, run_events, Event.is_execute]

namespace conv_reshape

theorem tag_at_ne_any (i : Nat) (h : i < tags.length) : tag_at i ≠ format_tag.any := by
  have h8 : i < 8 := h
  interval_cases i <;> decide

theorem combo_m_lt (c : Nat) (h : c < combinations) : combo_m c < tags.length := by
  have h192 : c < 192 := h
  simp only [combo_m, tags, wei_tags, List.length_cons, List.length_nil]
  omega

theorem combo_n_lt (c : Nat) : combo_n c < wei_tags.length := by
  simp only [combo_n, tags, wei_tags, List.length_cons, List.length_nil]
  omega

theorem combo_k_lt (c : Nat) : combo_k c < tags.length := by
  simp only [combo_k, tags, List.length_cons, List.length_nil]
  omega

end conv_reshape

/-- C5: on the suboptimal path of any combination of `main` in `conv_reshape.cpp`
(`conv_format(kind, in, wei, dst, in, wei, dst)` with the tags `main` reads for combination
number `c`), if the library's primitive descriptor reports back the source, weights and
destination descriptor it was built from whenever that descriptor's tag is not `any`, then the
three `need_reorder` flags are false, no reorder is executed, and the one convolution execute
gets `src_mem`, `weights_mem` and `dst_mem`. -/
theorem C5_suboptimal_path_runs_on_caller_layout {Desc : Type} [DecidableEq Desc]
    (L : Library Desc) (engine_kind : engine.kind) (c : Nat)
    (hsrc : ∀ kind dims dt tag w d, tag ≠ format_tag.any →
      L.src_desc kind (L.desc dims dt tag) w d = L.desc dims dt tag)
    (hwei : ∀ kind dims dt tag s d, tag ≠ format_tag.any →
      L.weights_desc kind s (L.desc dims dt tag) d = L.desc dims dt tag)
    (hdst : ∀ kind dims dt tag s w, tag ≠ format_tag.any →
      L.dst_desc kind s w (L.desc dims dt tag) = L.desc dims dt tag)
    (hc : c < conv_reshape.combinations) :
    (setup L conv_reshape.shape engine_kind
        (conv_reshape.suboptimal_call engine_kind c).input_f
        (conv_reshape.suboptimal_call engine_kind c).wei_f
        (conv_reshape.suboptimal_call engine_kind c).dst_f
        (conv_reshape.suboptimal_call engine_kind c).conv_input_f
        (conv_reshape.suboptimal_call engine_kind c).conv_wei_f
        (conv_reshape.suboptimal_call engine_kind c).conv_dst_f).need_reorder_src = false
    ∧ (setup L conv_reshape.shape engine_kind
        (conv_reshape.suboptimal_call engine_kind c).input_f
        (conv_reshape.suboptimal_call engine_kind c).wei_f
        (conv_reshape.suboptimal_call engine_kind c).dst_f
        (conv_reshape.suboptimal_call engine_kind c).conv_input_f
        (conv_reshape.suboptimal_call engine_kind c).conv_wei_f
        (conv_reshape.suboptimal_call engine_kind c).conv_dst_f).need_reorder_weights = false
    ∧ (setup L conv_reshape.shape engine_kind
        (conv_reshape.suboptimal_call engine_kind c).input_f
        (conv_reshape.suboptimal_call engine_kind c).wei_f
        (conv_reshape.suboptimal_call engine_kind c).dst_f
        (conv_reshape.suboptimal_call engine_kind c).conv_input_f
        (conv_reshape.suboptimal_call engine_kind c).conv_wei_f
        (conv_reshape.suboptimal_call engine_kind c).conv_dst_f).need_reorder_dsts = false
    ∧ executed_reorders (conv_reshape.conv_format L engine_kind
        (conv_reshape.suboptimal_call engine_kind c).input_f
        (conv_reshape.suboptimal_call engine_kind c).wei_f
        (conv_reshape.suboptimal_call engine_kind c).dst_f
        (conv_reshape.suboptimal_call engine_kind c).conv_input_f
        (conv_reshape.suboptimal_call engine_kind c).conv_wei_f
        (conv_reshape.suboptimal_call engine_kind c).conv_dst_f) = []
    ∧ conv_operands (conv_reshape.conv_format L engine_kind
        (conv_reshape.suboptimal_call engine_kind c).input_f
        (conv_reshape.suboptimal_call engine_kind c).wei_f
        (conv_reshape.suboptimal_call engine_kind c).dst_f
        (conv_reshape.suboptimal_call engine_kind c).conv_input_f
        (conv_reshape.suboptimal_call engine_kind c).conv_wei_f
        (conv_reshape.suboptimal_call engine_kind c).conv_dst_f)
      = [ ( ⟨Site.src_mem, L.desc [1, 128, 14, 14] data_type.f32
              (conv_reshape.tag_at (conv_reshape.combo_m c))⟩,
            ⟨Site.weights_mem, L.desc [256, 128, 3, 3] data_type.f32
              (conv_reshape.tag_at (conv_reshape.combo_n c))⟩,
            ⟨Site.dst_mem, L.desc [1, 256, 14, 14] data_type.f32
              (conv_reshape.tag_at (conv_reshape.combo_k c))⟩ ) ] := by
  have hm := conv_reshape.tag_at_ne_any _ (conv_reshape.combo_m_lt c hc)
  have hn := conv_reshape.tag_at_ne_any _
    (Nat.lt_of_lt_of_le (conv_reshape.combo_n_lt c) conv_reshape.wei_tags_length_le)
  have hk := conv_reshape.tag_at_ne_any _ (conv_reshape.combo_k_lt c)
  have e1 := hsrc engine_kind [1, 128, 14, 14] data_type.f32 _
    (L.desc [256, 128, 3, 3] data_type.f32 (conv_reshape.tag_at (conv_reshape.combo_n c)))
    (L.desc [1, 256, 14, 14] data_type.f32 (conv_reshape.tag_at (conv_reshape.combo_k c))) hm
  have e2 := hwei engine_kind [256, 128, 3, 3] data_type.f32 _
    (L.desc [1, 128, 14, 14] data_type.f32 (conv_reshape.tag_at (conv_reshape.combo_m c)))
    (L.desc [1, 256, 14, 14] data_type.f32 (conv_reshape.tag_at (conv_reshape.combo_k c))) hn
  have e3 := hdst engine_kind [1, 256, 14, 14] data_type.f32 _
    (L.desc [1, 128, 14, 14] data_type.f32 (conv_reshape.tag_at (conv_reshape.combo_m c)))
    (L.desc [256, 128, 3, 3] data_type.f32 (conv_reshape.tag_at (conv_reshape.combo_n c))) hk
  refine ⟨?_, ?_, ?_, ?_, ?_⟩
  · simp [setup, conv_reshape.suboptimal_call, conv_reshape.shape, e1]
  · simp [setup, conv_reshape.suboptimal_call, conv_reshape.shape, e2]
  · simp [setup, conv_reshape.suboptimal_call, conv_reshape.shape, e3]
  · rw [conv_reshape.conv_format, conv_reshape_reorders]
    simp [expected_reorders, setup, conv_reshape.suboptimal_call, conv_reshape.shape, e1, e2,
      e3]
  · rw [conv_reshape.conv_format, conv_reshape_operands]
    simp [expected_operands, setup, conv_reshape.suboptimal_call, conv_reshape.shape, e1, e2,
      e3]

theorem blocked_library_keeps_fixed_tags (d : plain_desc) (h : d.tag ≠ format_tag.any) :
    choose_layout d = d := by
  simp [choose_layout, h]

/-- C5, at a concrete input: the combination number 8 (`m = 0, n = 1, k = 0`, tags `nchw`,
`chwn`, `nchw`) with `blocked_library`, which meets the three hypotheses. -/
theorem C5_suboptimal_path_witness :
    8 < conv_reshape.combinations
    ∧ (∀ d : plain_desc, d.tag ≠ format_tag.any → choose_layout d = d)
    ∧ executed_reorders (conv_reshape.conv_format blocked_library engine.kind.cpu
        mf.nchw mf.chwn mf.nchw mf.nchw mf.chwn mf.nchw) = []
    ∧ conv_operands (conv_reshape.conv_format blocked_library engine.kind.cpu
        mf.nchw mf.chwn mf.nchw mf.nchw mf.chwn mf.nchw)
      = [ ( ⟨Site.src_mem, ⟨[1, 128, 14, 14], data_type.f32, format_tag.abcd⟩⟩,
            ⟨Site.weights_mem, ⟨[256, 128, 3, 3], data_type.f32, format_tag.bcda⟩⟩,
            ⟨Site.dst_mem, ⟨[1, 256, 14, 14], data_type.f32, format_tag.abcd⟩⟩ ) ] :=
  have h := C5_suboptimal_path_runs_on_caller_layout blocked_library engine.kind.cpu 8
    (fun _ _ _ _ _ _ ht => blocked_library_keeps_fixed_tags _ ht)
    (fun _ _ _ _ _ _ ht => blocked_library_keeps_fixed_tags _ ht)
    (fun _ _ _ _ _ _ ht => blocked_library_keeps_fixed_tags _ ht)
    (by decide)
  ⟨by decide, blocked_library_keeps_fixed_tags, h.2.2.2.1, h.2.2.2.2⟩

/-- C7 as stated fails: with equal shape constants and `repeat_times = 1` the two procedures
do not produce the same trace, and they do not time the same operations (shown on
`blocked_library`, the shape of `conv.cpp` and the tags `main` of `conv.cpp` passes). -/
theorem C7_traces_differ :
    conv.conv_format_at blocked_library conv.shape engine.kind.cpu mf.nchw mf.nhwc mf.nchw
        format_tag.any format_tag.any format_tag.any 1
      ≠ conv_reshape.conv_format_at blocked_library conv.shape engine.kind.cpu mf.nchw mf.nhwc
        mf.nchw format_tag.any format_tag.any format_tag.any
    ∧ timed (conv.conv_format_at blocked_library conv.shape engine.kind.cpu mf.nchw mf.nhwc
        mf.nchw format_tag.any format_tag.any format_tag.any 1)
      ≠ timed (conv_reshape.conv_format_at blocked_library conv.shape engine.kind.cpu mf.nchw
        mf.nhwc mf.nchw format_tag.any format_tag.any format_tag.any) := by
  decide

/-- C7 as amended: with equal shape constants and `repeat_times = 1`, for every library,
engine kind and six format tags, the two procedures produce the same steps in the same order
once the clock samples are left out; they differ in where the first clock sample is taken:
`conv.cpp` times only the convolution execute and its wait, `conv_reshape.cpp` times the
descriptor and memory construction, the comparisons, the reorders, the construction of the
primitive and the convolution. -/
theorem C7_same_steps_apart_from_clock {Desc : Type} [DecidableEq Desc] (L : Library Desc)
    (sh : Shape) (engine_kind : engine.kind)
    (input_f wei_f dst_f conv_input_f conv_wei_f conv_dst_f : mf) :
    without_clock (conv.conv_format_at L sh engine_kind input_f wei_f dst_f
        conv_input_f conv_wei_f conv_dst_f 1)
      = without_clock (conv_reshape.conv_format_at L sh engine_kind input_f wei_f dst_f
        conv_input_f conv_wei_f conv_dst_f)
    ∧ timed (conv.conv_format_at L sh engine_kind input_f wei_f dst_f
        conv_input_f conv_wei_f conv_dst_f 1)
      = run_events
        (setup L sh engine_kind input_f wei_f dst_f conv_input_f conv_wei_f conv_dst_f)
    ∧ timed (conv_reshape.conv_format_at L sh engine_kind input_f wei_f dst_f
        conv_input_f conv_wei_f conv_dst_f)
      = setup_events
          (setup L sh engine_kind input_f wei_f dst_f conv_input_f conv_wei_f conv_dst_f)
        ++ reorder_events
          (setup L sh engine_kind input_f wei_f dst_f conv_input_f conv_wei_f conv_dst_f)
        ++ primitive_events L engine_kind
          (setup L sh engine_kind input_f wei_f dst_f conv_input_f conv_wei_f conv_dst_f)
        ++ run_events
          (setup L sh engine_kind input_f wei_f dst_f conv_input_f conv_wei_f
            conv_dst_f) := by
  refine ⟨?_, ?_, conv_reshape_timed L sh engine_kind _ _ _ _ _ _⟩
  · simp only [conv.conv_format_at, conv_reshape.conv_format_at, without_clock_append]
    have h1 : (1 : Int).toNat = 1 := rfl
    rw [h1, flatMap_const_range_one]
    simp [without_clock, Event.is_clock]
  · rw [conv_timed]
    have h1 : (1 : Int).toNat = 1 := rfl
    rw [h1, flatMap_const_range_one]

section conv_loop

variable {Desc : Type}

theorem loop_conv_count (su : Setup Desc) (n : Nat) :
    (((List.range n).flatMap fun _ => run_events su).filter Event.is_conv).length = n := by
  induction n with
  | zero => simp
  | succ n ih =>
    rw [flatMap_const_range_succ, List.filter_append, List.length_append, ih]
    simp [run_events, Event.is_conv]
    omega

theorem loop_no_reorder (su : Setup Desc) (n : Nat) :
    ((List.range n).flatMap fun _ => run_events su).filter Event.is_reorder = [] := by
  induction n with
  | zero => simp
  | succ n ih =>
    rw [flatMap_const_range_succ, List.filter_append, ih]
    simp [run_events, Event.is_reorder]

end conv_loop

namespace conv

theorem int_products : (int_mul shape.N shape.IC).bind (fun a =>
    (int_mul a shape.H).bind fun b => int_mul b shape.W) = some 120000 := by
  decide

theorem byte_count_eq (repeat_times : Int) (h0 : 0 ≤ repeat_times)
    (h1 : repeat_times < 2 ^ 31) :
    byte_count repeat_times = some (480000 * repeat_times.toNat) := by
  have e1 : int_mul shape.N shape.IC = some 3 := by decide
  have e2 : int_mul 3 shape.H = some 600 := by decide
  have e3 : int_mul 600 shape.W = some 120000 := by decide
  have e4 : size_mul (to_size_t 120000) sizeof_float = 480000 := by decide
  have e5 : to_size_t repeat_times = repeat_times.toNat := by
    unfold to_size_t
    rw [Int.emod_eq_of_lt h0 (by omega)]
  unfold byte_count byte_count_at
  rw [e1, Option.some_bind, e2, Option.some_bind, e3, Option.some_bind, e4, e5]
  unfold size_mul
  rw [Nat.mod_eq_of_lt (by omega)]

end conv

/-- C9: in `conv.cpp`, for every `repeat_times` the interval between the two clock samples of
`conv_format` holds exactly `repeat_times.toNat` convolution executes (`repeat_times` of them
when `repeat_times >= 0`, none when `repeat_times <= 0`) and no reorder; the three `int`
products of `N * IC * H * W` stay in the 32-bit range and give 120000; for
`0 <= repeat_times < 2 ^ 31` the `size_t` products give `480000 * repeat_times`, which is
below `2 ^ 64`, so nothing wraps; for `main`'s `repeat_times = 1000` the count is 480000000;
and 480000 is the byte size of the input tensor alone (the product of the source dimensions
`N, IC, H, W` times `sizeof(float)`). -/
theorem C9_timed_loop_and_byte_count {Desc : Type} [DecidableEq Desc] (L : Library Desc)
    (engine_kind : engine.kind)
    (input_f wei_f dst_f conv_input_f conv_wei_f conv_dst_f : mf) (repeat_times : Int) :
    ((timed (conv.conv_format L engine_kind input_f wei_f dst_f conv_input_f conv_wei_f
        conv_dst_f repeat_times)).filter Event.is_conv).length = repeat_times.toNat
    ∧ (0 ≤ repeat_times →
        (((timed (conv.conv_format L engine_kind input_f wei_f dst_f conv_input_f conv_wei_f
          conv_dst_f repeat_times)).filter Event.is_conv).length : Int) = repeat_times)
    ∧ (repeat_times ≤ 0 →
        ((timed (conv.conv_format L engine_kind input_f wei_f dst_f conv_input_f conv_wei_f
          conv_dst_f repeat_times)).filter Event.is_conv).length = 0)
    ∧ (timed (conv.conv_format L engine_kind input_f wei_f dst_f conv_input_f conv_wei_f
        conv_dst_f repeat_times)).filter Event.is_reorder = []
    ∧ (conv.int_mul conv.shape.N conv.shape.IC).bind (fun a =>
        (conv.int_mul a conv.shape.H).bind fun b => conv.int_mul b conv.shape.W)
      = some 120000
    ∧ (0 ≤ repeat_times → repeat_times < 2 ^ 31 →
        conv.byte_count repeat_times = some (480000 * repeat_times.toNat)
        ∧ 480000 * repeat_times.toNat < 2 ^ 64)
    ∧ conv.byte_count conv.repeat_times = some 480000000
    ∧ ([conv.shape.N, conv.shape.IC, conv.shape.H, conv.shape.W].prod
        * (conv.sizeof_float : Int) = 480000) := by
  have ht := conv_timed L conv.shape engine_kind input_f wei_f dst_f conv_input_f conv_wei_f
    conv_dst_f repeat_times
  have hcount := loop_conv_count
    (setup L conv.shape engine_kind input_f wei_f dst_f conv_input_f conv_wei_f conv_dst_f)
    repeat_times.toNat
  unfold conv.conv_format
  rw [ht]
  refine ⟨hcount, ?_, ?_, loop_no_reorder _ _, conv.int_products, ?_, ?_, ?_⟩
  · intro h0
    rw [hcount]
    exact Int.toNat_of_nonneg h0
  · intro h0
    rw [hcount]
    exact Int.toNat_eq_zero.mpr h0
  · intro h0 h1
    exact ⟨conv.byte_count_eq repeat_times h0 h1, by omega⟩
  · exact conv.byte_count_eq 1000 (by decide) (by decide)
  · decide

/-- C9, at `main`'s call: `repeat_times = 1000` with `blocked_library`. -/
theorem C9_main_call_witness :
    (0 : Int) ≤ 1000 ∧ (1000 : Int) < 2 ^ 31
    ∧ ((timed (conv.main blocked_library engine.kind.cpu)).filter Event.is_conv).length = 1000
    ∧ (timed (conv.main blocked_library engine.kind.cpu)).filter Event.is_reorder = []
    ∧ conv.byte_count 1000 = some 480000000 :=
  have h := C9_timed_loop_and_byte_count blocked_library engine.kind.cpu mf.nchw mf.nhwc
    mf.nchw format_tag.any format_tag.any format_tag.any 1000
  ⟨by decide, by decide, h.1, h.2.2.2.1, (h.2.2.2.2.2.1 (by decide) (by decide)).1⟩

/-! ## The claims on `main` of `conv_reshape.cpp` -/

namespace conv_reshape

/-- A checked loop that reads `tags` one element too far takes the out-of-range branch. -/
theorem for_loop_checked_out_of_range :
    for_loop_checked (tags.length + 1) (fun i (s : Nat) => (tags[i]?).bind fun _ => some s) 0
      = none := by
  decide

/-- Equal durations on both paths are no success: with every call returning the same value
the final `success_cnt` is 0. -/
theorem ties_are_no_success (engine_kind : engine.kind) (d : Nat) :
    ∃ s, main engine_kind (fun _ => d) = some s ∧ s.success_cnt = 0 := by
  refine ⟨_, main_eq_expected engine_kind _, ?_⟩
  have hw : ∀ c, wins (fun _ : Nat => d) c = false := by
    intro c
    simp [wins, suboptimal_total, optimal_total]
  simp [expected_state, successes_before, hw]

theorem success_line_mem {D : Type} [Zero D] [Add D] [LT D]
    [DecidableRel (fun a b : D => a < b)] (ret : Nat → D) (bound m n k : Nat) :
    Line.success m n k ∈ (List.range bound).flatMap (expected_lines ret)
      ↔ ∃ c, c < bound ∧ wins ret c = true
          ∧ combo_m c = m ∧ combo_n c = n ∧ combo_k c = k := by
  simp only [List.mem_flatMap, List.mem_range, expected_lines, List.mem_cons]
  constructor
  · rintro ⟨c, hc, h | h⟩
    · cases h
    · by_cases hw : wins ret c = true
      · rw [if_pos hw, List.mem_singleton] at h
        cases h
        exact ⟨c, hc, hw, rfl, rfl, rfl⟩
      · rw [if_neg hw] at h
        cases h
  · rintro ⟨c, hc, hw, rfl, rfl, rfl⟩
    exact ⟨c, hc, Or.inr (by rw [if_pos hw]; exact List.mem_singleton.mpr rfl)⟩

theorem status_durations {D : Type} [Zero D] [Add D] [LT D]
    [DecidableRel (fun a b : D => a < b)] (ret : Nat → D) (bound : Nat) :
    ((List.range bound).flatMap (expected_lines ret)).filterMap Line.durations
      = (List.range bound).map fun c => (suboptimal_total ret c, optimal_total ret c) := by
  induction bound with
  | zero => simp
  | succ b ih =>
    rw [List.range_succ, List.flatMap_append, List.filterMap_append, ih, List.map_append]
    by_cases hw : wins ret b = true <;> simp [expected_lines, hw, Line.durations]

theorem weight_tag_of_expected_call (engine_kind : engine.kind) (bound : Nat) (c : Call)
    (h : c ∈ (List.range bound).flatMap fun j =>
      List.replicate repeat_times (suboptimal_call engine_kind j)
        ++ List.replicate repeat_times (optimal_call engine_kind j)) :
    ∃ n, n < wei_tags.length ∧ c.wei_f = tag_at n := by
  simp only [List.mem_flatMap, List.mem_append, List.mem_replicate] at h
  obtain ⟨j, _, h | h⟩ := h
  · exact ⟨combo_n j, combo_n_lt j, by rw [h.2]; rfl⟩
  · exact ⟨combo_n j, combo_n_lt j, by rw [h.2]; rfl⟩

end conv_reshape

/-- C2: for every assignment `ret` of returned durations (of any type with `0`, `+` and a
decidable `<`), `main` of `conv_reshape.cpp` returns; its final `success_cnt` is the number of
combinations whose accumulated suboptimal duration is strictly below the accumulated optimal
one; its output is, combination by combination in loop order, the status line carrying the
number of successes among the combinations before it, followed by the `[Success] m n k` line
exactly when that combination is a success. -/
theorem C2_success_cnt_counts_strict_wins {D : Type} [Zero D] [Add D] [LT D]
    [DecidableRel (fun a b : D => a < b)] (engine_kind : engine.kind) (ret : Nat → D) :
    ∃ s, conv_reshape.main engine_kind ret = some s
      ∧ s.success_cnt
        = (((List.range conv_reshape.combinations).filter fun c =>
            decide (conv_reshape.suboptimal_total ret c
              < conv_reshape.optimal_total ret c)).length : Int)
      ∧ s.out = (List.range conv_reshape.combinations).flatMap (fun c =>
          conv_reshape.Line.status
              (((List.range c).filter fun j =>
                decide (conv_reshape.suboptimal_total ret j
                  < conv_reshape.optimal_total ret j)).length : Int)
              (conv_reshape.combo_m c) (conv_reshape.combo_n c) (conv_reshape.combo_k c)
              (conv_reshape.suboptimal_total ret c) (conv_reshape.optimal_total ret c)
            :: (if conv_reshape.suboptimal_total ret c < conv_reshape.optimal_total ret c
                then [conv_reshape.Line.success (conv_reshape.combo_m c)
                  (conv_reshape.combo_n c) (conv_reshape.combo_k c)]
                else []))
      ∧ ∀ m n k, conv_reshape.Line.success m n k ∈ s.out
          ↔ ∃ c, c < conv_reshape.combinations
              ∧ conv_reshape.suboptimal_total ret c < conv_reshape.optimal_total ret c
              ∧ conv_reshape.combo_m c = m ∧ conv_reshape.combo_n c = n
              ∧ conv_reshape.combo_k c = k := by
  refine ⟨_, conv_reshape.main_eq_expected engine_kind ret, rfl, ?_, ?_⟩
  · show (List.range conv_reshape.combinations).flatMap (conv_reshape.expected_lines ret) = _
    apply congrArg (fun f => (List.range conv_reshape.combinations).flatMap f)
    funext c
    simp [conv_reshape.expected_lines, conv_reshape.wins, conv_reshape.successes_before]
    rfl
  · intro m n k
    show conv_reshape.Line.success m n k
      ∈ (List.range conv_reshape.combinations).flatMap (conv_reshape.expected_lines ret) ↔ _
    rw [conv_reshape.success_line_mem ret conv_reshape.combinations m n k]
    simp [conv_reshape.wins]

/-- C8: for every assignment `ret` of returned durations, `main` of `conv_reshape.cpp`
returns, and the calls of `conv_format` it has made are, combination by combination in loop
order, `repeat_times = 10` calls with the convolution tags equal to the caller's tags followed
by 10 calls with the convolution tags `any`, all 20 with the same caller tags; that is
`192 * 20 = 3840` calls; and the two durations on each status line are the values returned by
the 10 calls of their path, added one by one to 0. -/
theorem C8_ten_suboptimal_then_ten_optimal_calls {D : Type} [Zero D] [Add D] [LT D]
    [DecidableRel (fun a b : D => a < b)] (engine_kind : engine.kind) (ret : Nat → D) :
    ∃ s, conv_reshape.main engine_kind ret = some s
      ∧ s.calls = (List.range 192).flatMap (fun c =>
          List.replicate 10
              ({ engine_kind := engine_kind
                 input_f := conv_reshape.tag_at (conv_reshape.combo_m c)
                 wei_f := conv_reshape.tag_at (conv_reshape.combo_n c)
                 dst_f := conv_reshape.tag_at (conv_reshape.combo_k c)
                 conv_input_f := conv_reshape.tag_at (conv_reshape.combo_m c)
                 conv_wei_f := conv_reshape.tag_at (conv_reshape.combo_n c)
                 conv_dst_f := conv_reshape.tag_at (conv_reshape.combo_k c) } :
                conv_reshape.Call)
            ++ List.replicate 10
              ({ engine_kind := engine_kind
                 input_f := conv_reshape.tag_at (conv_reshape.combo_m c)
                 wei_f := conv_reshape.tag_at (conv_reshape.combo_n c)
                 dst_f := conv_reshape.tag_at (conv_reshape.combo_k c)
                 conv_input_f := format_tag.any
                 conv_wei_f := format_tag.any
                 conv_dst_f := format_tag.any } : conv_reshape.Call))
      ∧ s.calls.length = 3840
      ∧ s.out.filterMap conv_reshape.Line.durations
        = (List.range 192).map (fun c =>
          (((List.range 10).map fun i => ret (c * 20 + i)).foldl (fun acc d => acc + d) 0,
           ((List.range 10).map fun i => ret (c * 20 + 10 + i)).foldl
            (fun acc d => acc + d) 0)) := by
  refine ⟨_, conv_reshape.main_eq_expected engine_kind ret, rfl, ?_, ?_⟩
  · exact conv_reshape.expected_calls_length engine_kind conv_reshape.combinations
  · exact conv_reshape.status_durations ret conv_reshape.combinations

/-- C10: for every assignment `ret` of returned durations, `main` of `conv_reshape.cpp` never
takes the out-of-range branch of a vector read: it returns a final state; `tags` has 8
elements and `wei_tags` 3, and every read `tags[m]`, `tags[k]` with an index below
`tags.size()` and every read `tags[n]` with an index below `wei_tags.size()` is in range. -/
theorem C10_vector_reads_in_range {D : Type} [Zero D] [Add D] [LT D]
    [DecidableRel (fun a b : D => a < b)] (engine_kind : engine.kind) (ret : Nat → D) :
    (conv_reshape.main engine_kind ret).isSome = true
    ∧ conv_reshape.tags.length = 8
    ∧ conv_reshape.wei_tags.length = 3
    ∧ (∀ m, m < conv_reshape.tags.length → (conv_reshape.tags[m]?).isSome = true)
    ∧ (∀ n, n < conv_reshape.wei_tags.length → (conv_reshape.tags[n]?).isSome = true) := by
  refine ⟨?_, rfl, rfl, ?_, ?_⟩
  · rw [conv_reshape.main_eq_expected]
    rfl
  · intro m hm
    rw [conv_reshape.tags_getElem?_eq m hm]
    rfl
  · intro n hn
    rw [conv_reshape.tags_getElem?_eq n
      (Nat.lt_of_lt_of_le hn conv_reshape.wei_tags_length_le)]
    rfl

/-- C1 (the code departs from the claim): `main` of `conv_reshape.cpp` visits
`8 * 3 * 8 = 192` combinations, but the weight tag of a combination is `tags[n]`, not
`wei_tags[n]`: at `n = 1` the claim names `wei_tags[1] = hwio` and the code passes
`tags[1] = chwn`; no call of the run has the weight tag `hwio`, and the calls of the
combinations with `n = 2` have the weight tag `nhwc`, which is not in `wei_tags`. -/
theorem C1_weight_tag_is_read_from_tags {D : Type} [Zero D] [Add D] [LT D]
    [DecidableRel (fun a b : D => a < b)] (engine_kind : engine.kind) (ret : Nat → D) :
    ∃ s, conv_reshape.main engine_kind ret = some s
      ∧ conv_reshape.combinations = 192
      ∧ conv_reshape.wei_tags[1]? = some mf.hwio
      ∧ conv_reshape.combo_m 8 = 0 ∧ conv_reshape.combo_n 8 = 1 ∧ conv_reshape.combo_k 8 = 0
      ∧ (conv_reshape.suboptimal_call engine_kind 8).wei_f = mf.chwn
      ∧ conv_reshape.suboptimal_call engine_kind 8 ∈ s.calls
      ∧ s.calls[160]?
        = some ⟨engine_kind, mf.nchw, mf.chwn, mf.nchw, mf.nchw, mf.chwn, mf.nchw⟩
      ∧ (∀ c ∈ s.calls, c.wei_f ≠ mf.hwio)
      ∧ (∃ c ∈ s.calls, c.wei_f = mf.nhwc)
      ∧ mf.nhwc ∉ conv_reshape.wei_tags := by
  refine ⟨_, conv_reshape.main_eq_expected engine_kind ret, by decide, rfl, rfl, rfl, rfl,
    rfl, ?_, rfl, ?_, ?_, by decide⟩
  · simp only [conv_reshape.expected_state, List.mem_flatMap, List.mem_range,
      List.mem_append, List.mem_replicate]
    exact ⟨8, by decide, Or.inl ⟨by decide, rfl⟩⟩
  · intro c hc
    obtain ⟨n, hn, hw⟩ := conv_reshape.weight_tag_of_expected_call engine_kind _ c hc
    rw [hw]
    have h3 : n < 3 := hn
    interval_cases n <;> decide
  · refine ⟨conv_reshape.suboptimal_call engine_kind 16, ?_, rfl⟩
    simp only [conv_reshape.expected_state, List.mem_flatMap, List.mem_range,
      List.mem_append, List.mem_replicate]
    exact ⟨16, by decide, Or.inl ⟨by decide, rfl⟩⟩
